import Mathlib

/-!
# Utilities: a verification development

Shallow embedding of the orchestration logic of the command-line programs
`FitBSplineCurveToAvantsLandmarks` (CurveFitter),
`ConvertDeformationFieldToAvantsLandmarkFiles` (DeformationFieldLandmarkExporter),
`ExtractLungs` (LungSegmenter) and `ExtractContours` (ContourExtractor), and of the class
`GaborKernelFunction`, with the properties their specification states.
Definitions come first, one section per program; the properties follow.

Conventions of the embedding:

* a `std::string` is a `List Char`; `std::string::npos` is `none`;
* a `float` variable that the program may leave unassigned is an `Option`, `none`
  standing for an indeterminate value;
* real-valued quantities are taken in an ordered field (exact arithmetic), except in
  the sample count of the curve fitter, which is computed in IEEE `double` arithmetic
  (`roundDouble`);
* calls into the image toolkit (interpolators, physical-point transforms, slice
  filters, component statistics) and into the mathematical library (`sqrt`, `exp`,
  `cos`, `sin`, `atof`) are parameters of the definitions;
* a command line is the list `argv` of its arguments, `argc` being its length.
-/

set_option autoImplicit false

namespace Utilities

/-! ## CurveFitter: the landmark line parser (`FitBSplineCurveToPoints`, lines 38-83) -/

section Parser

variable {α : Type}

/-- Model of `std::string::find` for the one-character delimiter `","`: the position of the
first occurrence in `line`, or `none` for `std::string::npos`. -/
def find (line : List Char) (delimiter : Char) : Option Nat :=
  match line with
  | [] => none
  | c :: rest => if c = delimiter then some 0 else (find rest delimiter).map Nat.succ

/-- Local variables of the tokenising loop: the remaining `line`, the `vector` being
filled (one slot per dimension, `none` while unassigned), the `weight` and
`dimensionCount`. -/
structure ParseState (α : Type) where
  line : List Char
  vector : List (Option α)
  weight : Option α
  dimensionCount : Nat
deriving DecidableEq

/-- The `while ( ( pos = line.find( delimiter ) ) != npos )` loop of lines 48-66.
`rd` is the extraction `stream >> element` applied to the token; `fuel` bounds the
number of iterations and `none` is returned when it runs out. -/
def tokenLoop (rd : List Char → Option α) (PointDimension : Nat) :
    Nat → ParseState α → Option (ParseState α)
  | 0, _ => none
  | fuel + 1, st =>
    match find st.line ',' with
    | none => some st
    | some pos =>
      let token := st.line.take pos
      let element := rd token
      if st.dimensionCount = PointDimension then
        some { st with weight := element }
      else
        tokenLoop rd PointDimension fuel
          { st with
            vector := st.vector.set st.dimensionCount element
            dimensionCount := st.dimensionCount + 1
            line := st.line.drop (pos + 1) }

/-- State on entry to the tokenising loop (lines 40-47): an unassigned `vector`,
`weight = 1.0`, `dimensionCount = 0`. -/
def initialParseState [One α] (PointDimension : Nat) (line : List Char) : ParseState α :=
  { line := line
    vector := List.replicate PointDimension none
    weight := some 1
    dimensionCount := 0 }

/-- Body of the `getline` loop up to line 66 for one input line: the point data and
weight that lines 68 and 81 store. -/
def parseLine [One α] (rd : List Char → Option α) (PointDimension : Nat)
    (line : List Char) : Option (ParseState α) :=
  tokenLoop rd PointDimension (line.length + 1) (initialParseState PointDimension line)

/-- The point data stored by `SetPointData` (line 68) for each line of the file. -/
def parsedVectors [One α] (rd : List Char → Option α) (PointDimension : Nat)
    (lines : List (List Char)) : List (Option (List (Option α))) :=
  lines.map fun line => (parseLine rd PointDimension line).map ParseState.vector

/-- The weight stored by `InsertElement` (line 81) for one line. -/
def parsedWeight [One α] (rd : List Char → Option α) (PointDimension : Nat)
    (line : List Char) : Option (Option α) :=
  (parseLine rd PointDimension line).map ParseState.weight

/-- Value of a run of decimal digits, most significant first; `none` on any other
character. -/
def readDigits : List Char → Nat → Option Nat
  | [], acc => some acc
  | c :: rest, acc =>
    if c.isDigit then readDigits rest (10 * acc + (c.toNat - 48)) else none

/-- Formatted extraction `stream >> element` on a token that is a plain decimal
integer numeral (optional leading minus sign); every other token is left
undetermined (`none`). -/
def readNumber (token : List Char) : Option Int :=
  match token with
  | [] => none
  | '-' :: c :: rest => (readDigits (c :: rest) 0).map fun n => - (n : Int)
  | c :: rest => (readDigits (c :: rest) 0).map fun n => (n : Int)

/-- The line made of the given fields separated by commas. -/
def joinFields : List (List Char) → List Char
  | [] => []
  | [f] => f
  | f :: g :: fs => f ++ ',' :: joinFields (g :: fs)

end Parser

/-! ## CurveFitter: arc-length parametrization (`FitBSplineCurveToPoints`, lines 68-98) -/

section Parametrization

variable {α : Type}

/-- Model of `itk::Vector::GetSquaredNorm`: the sum of the squared components. -/
def GetSquaredNorm [Add α] [Mul α] [Zero α] (v : List α) : α :=
  (v.map fun x => x * x).sum

/-- Model of `itk::Vector::GetNorm`: the square root (`sqrt`) of the squared norm. -/
def GetNorm [Add α] [Mul α] [Zero α] (sqrt : α → α) (v : List α) : α :=
  sqrt (GetSquaredNorm v)

/-- Model of `itk::Vector::operator-`: componentwise difference. -/
def vsub [Sub α] (a b : List α) : List α :=
  List.zipWith (fun x y => x - y) a b

/-- What the read loop builds: the point data and parameters of `pointSet`, the
`weights` container, `totalDistance` and `count`. -/
structure FitState (α : Type) where
  pointData : List (List α)
  points : List α
  weights : List α
  totalDistance : α
  count : Nat

/-- State before the first line is read (lines 21-35). -/
def initialFitState [Zero α] : FitState α :=
  { pointData := [], points := [], weights := [], totalDistance := 0, count := 0 }

/-- Lines 68-82 for one parsed landmark: store the point data, add the distance to
the previous landmark to `totalDistance` when `count > 0`, store parameter `0.0` and
the weight, and increment `count`. -/
def storePoint [Add α] [Sub α] [Mul α] [Zero α] (sqrt : α → α) (st : FitState α)
    (vector : List α) (weight : α) : FitState α :=
  let pointData := st.pointData ++ [vector]
  let totalDistance :=
    if 0 < st.count then
      let previous := pointData.getD (st.count - 1) []
      st.totalDistance + GetNorm sqrt (vsub previous vector)
    else st.totalDistance
  { pointData := pointData
    points := st.points ++ [0]
    weights := st.weights ++ [weight]
    totalDistance := totalDistance
    count := st.count + 1 }

/-- The read loop (lines 38-83) over the landmarks, each a vector with its weight. -/
def readLandmarks [Add α] [Sub α] [Mul α] [Zero α] (sqrt : α → α)
    (landmarks : List (List α × α)) : FitState α :=
  landmarks.foldl (fun st lm => storePoint sqrt st lm.1 lm.2) initialFitState

/-- One iteration of the loop of lines 87-98 on the pair (`cumSum`, parameters). -/
def parametrizeStep [Add α] [Sub α] [Mul α] [Div α] [Zero α] (sqrt : α → α)
    (st : FitState α) (acc : α × List α) (i : Nat) : α × List α :=
  let vector := st.pointData.getD i []
  let previous := st.pointData.getD (i - 1) []
  let cumSum := acc.1 + GetNorm sqrt (vsub vector previous)
  (cumSum, acc.2.set i (cumSum / st.totalDistance))

/-- Lines 86-98: `cumSum` starts at `0.0` and `i` runs from `1` while
`i < GetNumberOfPoints()`; the result is the final `cumSum` and the parameters. -/
def parametrizeLoop [Add α] [Sub α] [Mul α] [Div α] [Zero α] (sqrt : α → α)
    (st : FitState α) : α × List α :=
  (List.range' 1 (st.points.length - 1)).foldl (parametrizeStep sqrt st) (0, st.points)

/-- The parameters assigned to the landmarks of a file: lines 38-98 together. -/
def parametrize [Add α] [Sub α] [Mul α] [Div α] [Zero α] (sqrt : α → α)
    (landmarks : List (List α × α)) : List α :=
  (parametrizeLoop sqrt (readLandmarks sqrt landmarks)).2

/-- Path length from landmark `0` to landmark `i`: the sum over `k = 1..i` of the
norm of `p_k - p_(k-1)`. -/
def arcLength [Add α] [Sub α] [Mul α] [Zero α] (sqrt : α → α) (p : List (List α))
    (i : Nat) : α :=
  ((List.range i).map fun k => GetNorm sqrt (vsub (p.getD (k + 1) []) (p.getD k []))).sum

/-- The four landmarks `(0,0)`, `(1,0)`, `(1,1)`, `(0,1)` with weight `1`. -/
def squareLandmarks : List (List ℝ × ℝ) :=
  [([0, 0], 1), ([1, 0], 1), ([1, 1], 1), ([0, 1], 1)]

end Parametrization

/-! ## DeformationFieldLandmarkExporter (`ConvertDeformationFieldToAvantsLandmarkFiles`) -/

section Exporter

variable {α : Type}

/-- One item inserted into an output stream with `<<`: a floating value, the
`unsigned long` pair index, a string literal, or `std::endl`. -/
inductive Tok (α : Type) where
  | num (x : α)
  | idx (n : Nat)
  | str (s : String)
  | endl
deriving DecidableEq

/-- The framing line written at lines 68-69 and 127-128. -/
def sentinel : List (Tok α) := [Tok.str "0 0 0 0", Tok.endl]

/-- The two output streams `strM` (Moving) and `strF` (Fixed) and the running
`index`.  The index is bounded by the number of voxels plus one, so the
`unsigned long` never wraps and a natural number represents it. -/
structure ExportState (α : Type) where
  strM : List (Tok α)
  strF : List (Tok α)
  index : Nat

/-- Raster order of `ImageRegionIteratorWithIndex` over a region given by the start
index and size of each dimension: the first dimension varies fastest. -/
def rasterIndices : List (Int × Nat) → List (List Int)
  | [] => [[]]
  | (start, size) :: rest =>
    (rasterIndices rest).flatMap fun tail =>
      (List.range size).map fun i => (start + (i : Int)) :: tail

/-- Lines 97-108: the point `tmp_pt` at which the mask is probed. -/
def probePoint [Add α] [Zero α] (ImageDimension type : Nat) (pt disp : List α) : List α :=
  (List.range ImageDimension).map fun i =>
    if type = 0 then pt.getD i 0 + disp.getD i 0 else pt.getD i 0

/-- The test of line 109 on the probe point: inside the mask buffer and
nearest-neighbour mask value positive. -/
def maskAccepts (IsInsideBuffer : List α → Bool) (Evaluate : List α → Nat)
    (tmp_pt : List α) : Bool :=
  IsInsideBuffer tmp_pt && decide (0 < Evaluate tmp_pt)

/-- What lines 111-122 append to `strM` for the source point `pt` and `index`. -/
def movingLine [Zero α] (ImageDimension : Nat) (pt : List α) (index : Nat) : List (Tok α) :=
  [Tok.num (pt.getD 0 0), Tok.str " ", Tok.num (pt.getD 1 0), Tok.str " "] ++
    (if ImageDimension = 3 then [Tok.num (pt.getD 2 0), Tok.str " ", Tok.idx index, Tok.endl]
     else if ImageDimension = 2 then [Tok.str "0 ", Tok.idx index, Tok.endl]
     else [])

/-- What lines 111-122 append to `strF` for the source point `pt`, displacement
`disp` and `index`. -/
def fixedLine [Add α] [Zero α] (ImageDimension : Nat) (pt disp : List α) (index : Nat) :
    List (Tok α) :=
  [Tok.num (pt.getD 0 0 + disp.getD 0 0), Tok.str " ",
    Tok.num (pt.getD 1 0 + disp.getD 1 0), Tok.str " "] ++
    (if ImageDimension = 3 then
       [Tok.num (pt.getD 2 0 + disp.getD 2 0), Tok.str " ", Tok.idx index, Tok.endl]
     else if ImageDimension = 2 then [Tok.str "0 ", Tok.idx index, Tok.endl]
     else [])

/-- Body of the voxel loop (lines 88-124) at image index `ix`.  `field` is
`reader->GetOutput()->GetPixel`, `toPhysical` is `TransformIndexToPhysicalPoint`, and
`IsInsideBuffer`, `Evaluate` are the members of the nearest-neighbour interpolator on
the mask. -/
def visitVoxel [Add α] [Mul α] [Zero α] [DecidableEq α] (ImageDimension type : Nat)
    (field toPhysical : List Int → List α) (IsInsideBuffer : List α → Bool)
    (Evaluate : List α → Nat) (st : ExportState α) (ix : List Int) : ExportState α :=
  let disp := field ix
  if GetSquaredNorm disp = 0 then st
  else
    let pt := toPhysical ix
    let tmp_pt := probePoint ImageDimension type pt disp
    if maskAccepts IsInsideBuffer Evaluate tmp_pt then
      { strM := st.strM ++ movingLine ImageDimension pt st.index
        strF := st.strF ++ fixedLine ImageDimension pt disp st.index
        index := st.index + 1 }
    else st

/-- Lines 68-128: the sentinel line, the voxel loop over the mask region in raster
order starting with `index = 1`, and the closing sentinel line. -/
def exportLandmarks [Add α] [Mul α] [Zero α] [DecidableEq α] (ImageDimension type : Nat)
    (field toPhysical : List Int → List α) (IsInsideBuffer : List α → Bool)
    (Evaluate : List α → Nat) (region : List (Int × Nat)) : ExportState α :=
  let st := (rasterIndices region).foldl
    (visitVoxel ImageDimension type field toPhysical IsInsideBuffer Evaluate)
    { strM := sentinel, strF := sentinel, index := 1 }
  { st with strM := st.strM ++ sentinel, strF := st.strF ++ sentinel }

/-- The emission condition as the specification words it: the displacement has a
non-zero component, the probe point is inside the mask buffer, and the mask value
there is positive. -/
def emitsPair [Add α] [Zero α] [DecidableEq α] (ImageDimension type : Nat)
    (field toPhysical : List Int → List α) (IsInsideBuffer : List α → Bool)
    (Evaluate : List α → Nat) (ix : List Int) : Bool :=
  (field ix).any (fun x => decide (x ≠ 0)) &&
    (IsInsideBuffer (probePoint ImageDimension type (toPhysical ix) (field ix)) &&
      decide (0 < Evaluate (probePoint ImageDimension type (toPhysical ix) (field ix))))

/-- A pair line carrying index `k`: its last two items are the index `k` and the end
of line, and no end of line occurs before them. -/
def IsPairLine (line : List (Tok α)) (k : Nat) : Prop :=
  ∃ body : List (Tok α), line = body ++ [Tok.idx k, Tok.endl] ∧ Tok.endl ∉ body

/-- The voxels for which a pair is emitted, in visiting order. -/
def emittedVoxels [Add α] [Zero α] [DecidableEq α] (ImageDimension type : Nat)
    (field toPhysical : List Int → List α) (IsInsideBuffer : List α → Bool)
    (Evaluate : List α → Nat) (region : List (Int × Nat)) : List (List Int) :=
  (rasterIndices region).filter
    (emitsPair ImageDimension type field toPhysical IsInsideBuffer Evaluate)

/-- The Moving lines of the voxels `voxels`, numbered consecutively from `start`. -/
def movingLines [Zero α] (ImageDimension : Nat) (toPhysical : List Int → List α)
    (start : Nat) (voxels : List (List Int)) : List (List (Tok α)) :=
  (voxels.enumFrom start).map fun ki => movingLine ImageDimension (toPhysical ki.2) ki.1

/-- The Fixed lines of the voxels `voxels`, numbered consecutively from `start`. -/
def fixedLines [Add α] [Zero α] (ImageDimension : Nat) (field toPhysical : List Int → List α)
    (start : Nat) (voxels : List (List Int)) : List (List (Tok α)) :=
  (voxels.enumFrom start).map fun ki =>
    fixedLine ImageDimension (toPhysical ki.2) (field ki.2) ki.1

/-- A sample displacement field on integer coordinates: displacement `(1, 0)` at the
voxels with first index `0`, and no displacement elsewhere. -/
def sampleField (ix : List Int) : List Int :=
  if ix.getD 0 0 = 0 then [1, 0] else [0, 0]

/-- A sample geometry with unit spacing and origin zero: the physical point of a voxel
has the coordinates of its index. -/
def sampleToPhysical (ix : List Int) : List Int := ix

end Exporter

/-! ## LungSegmenter (`ExtractLungs`) -/

section LungSegmenter

/-- Value of `itk::NumericTraits<int>::max()`. -/
def INT_MAX : Int := 2147483647

/-- Value of `itk::NumericTraits<int>::min()`. -/
def INT_MIN : Int := -2147483648

/-- Conversion `int -> float` in the comparisons of lines 113 and 117.  It is exact on
every value the scan stores (a truncated `float`) and on `INT_MIN`; `INT_MAX` rounds
to `2^31`. -/
def intToFloat (n : Int) : ℚ :=
  if n = INT_MAX then 2147483648 else (n : ℚ)

/-- Conversion `float -> int` in the assignments of lines 115 and 119: truncation
toward zero. -/
def floatToInt (x : ℚ) : Int :=
  Int.tdiv x.num x.den

/-- The variables `minValue` and `maxValue` of the scan. -/
structure MinMax where
  minValue : Int
  maxValue : Int
deriving DecidableEq

/-- Body of the loop of lines 109-122 for one voxel with mask value `m` and
intensity `v`. -/
def scanVoxel (maskLabel : Int) (acc : MinMax) (m : Int) (v : ℚ) : MinMax :=
  if m = maskLabel then
    if v < intToFloat acc.minValue then { acc with minValue := floatToInt v }
    else if v > intToFloat acc.maxValue then { acc with maxValue := floatToInt v }
    else acc
  else acc

/-- Lines 107-122: the scan over the image and the mask in lockstep, from
`maxValue = INT_MIN` and `minValue = INT_MAX`, with `maskLabel = 1`. -/
def scanMinMax (image : List ℚ) (mask : List Int) : MinMax :=
  (List.zip mask image).foldl (fun acc mv => scanVoxel 1 acc mv.1 mv.2)
    { minValue := INT_MAX, maxValue := INT_MIN }

/-- Lines 230-236: the decision, paired with the list of object numbers whose size is
queried, in evaluation order.  `GetSizeOfObjectInPhysicalUnits` is the accessor of
the relabel filter and `numberOfObjects` is its `GetNumberOfObjects()`. -/
def splitDecision (numberOfObjects : Nat) (GetSizeOfObjectInPhysicalUnits : Nat → ℚ) :
    Bool × List Nat :=
  if numberOfObjects > 2 then
    (decide (GetSizeOfObjectInPhysicalUnits 2 < 0.75 * GetSizeOfObjectInPhysicalUnits 1),
      [2, 1])
  else (false, [])

/-- The flag `needToSeparateLungs` after line 236. -/
def needToSeparateLungs (numberOfObjects : Nat) (GetSizeOfObjectInPhysicalUnits : Nat → ℚ) :
    Bool :=
  (splitDecision numberOfObjects GetSizeOfObjectInPhysicalUnits).1

/-- Lines 242-257: the new value of a voxel of the relabelled complement image (the
voxel is left as it is when no branch applies). -/
def remapLabel (needToSeparateLungs : Bool) (v : Int) : Int :=
  if v = 0 then 1
  else if v = 1 ∨ v > 3 then 0
  else if v > 2 ∧ needToSeparateLungs = true then 1
  else if v ≥ 2 ∧ ¬ needToSeparateLungs = true then 1
  else v

/-- Lines 280-287: the new value of a voxel of the second relabelled image, from the
remapped voxel `it` and its own value `it2`. -/
def cleanupLabel (needToSeparateLungs : Bool) (it it2 : Int) : Int :=
  if it2 > 1 then 0
  else if it = 2 ∨ (it > 2 ∧ needToSeparateLungs = true) then it
  else it2

/-- The remap pass (lines 238-258) over a volume stored as a list of axial slices. -/
def remapPass (needToSeparateLungs : Bool) (volume : List (List Int)) : List (List Int) :=
  volume.map (List.map (remapLabel needToSeparateLungs))

/-- The cleanup pass (lines 276-288) with the iterators `It` and `It2` in lockstep. -/
def cleanupPass (needToSeparateLungs : Bool) (It It2 : List (List Int)) : List (List Int) :=
  List.zipWith (List.zipWith (cleanupLabel needToSeparateLungs)) It It2

/-- The foreground value given to the closing and repair filters (lines 333, 345). -/
def ForegroundValue : Int := 2

/-- Lines 360-374 for one slice: every position where the filter output equals the
foreground value is set to the foreground value in the label volume. -/
def writeBackSlice (output slice : List Int) : List Int :=
  output.enum.foldl
    (fun sl io => if io.2 = ForegroundValue then sl.set io.1 ForegroundValue else sl) slice

/-- Lines 302-376: slices `s = size_z - 1` down to `0`; each is extracted, run through
the closing and repair filters (`sliceFilter`), and written back. -/
def repairPass (sliceFilter : List Int → List Int) (volume : List (List Int)) :
    List (List Int) :=
  (List.range volume.length).reverse.foldl
    (fun vol s => vol.set s (writeBackSlice (sliceFilter (vol.getD s [])) (vol.getD s [])))
    volume

/-- Lines 238-376: remap of the relabelled complement `relabeler3`, a second
component labelling (`relabel`, lines 266-274), cleanup and per-slice repair. -/
def labelVolume (needToSeparateLungs : Bool) (relabel : List (List Int) → List (List Int))
    (sliceFilter : List Int → List Int) (relabeler3 : List (List Int)) : List (List Int) :=
  let It := remapPass needToSeparateLungs relabeler3
  repairPass sliceFilter (cleanupPass needToSeparateLungs It (relabel It))

/-- A sample second relabelling: every non-zero voxel gets label `1`. -/
def sampleRelabel (volume : List (List Int)) : List (List Int) :=
  volume.map (List.map fun x => if x = 0 then 0 else 1)

/-- A sample slice filter: its output is foreground everywhere. -/
def sampleSliceFilter (slice : List Int) : List Int :=
  slice.map fun _ => ForegroundValue

end LungSegmenter

/-! ## CurveFitter: command line, fit configuration and output (lines 100-212) -/

section CurveFitterMain

variable {α : Type}

/-- Digits of `atoi`: the value of the leading run of decimal digits. -/
def atoiDigits : List Char → Nat → Nat
  | [], acc => acc
  | c :: rest, acc =>
    if c.isDigit then atoiDigits rest (10 * acc + (c.toNat - 48)) else acc

/-- Model of the C library function `atoi`: leading white space is skipped, an optional
sign is read, then the leading run of digits; the value is `0` when no digit is found.
Values outside the range of `int` are not modelled. -/
def atoi (s : String) : Int :=
  match s.toList.dropWhile Char.isWhitespace with
  | '-' :: rest => - (atoiDigits rest 0 : Int)
  | '+' :: rest => (atoiDigits rest 0 : Int)
  | rest => (atoiDigits rest 0 : Int)

/-- Conversion of an integer value to `unsigned int`: reduction modulo `2^32`. -/
def toUnsigned (n : Int) : Nat :=
  (n % 4294967296).toNat

/-- Quotient `n / d` rounded to the nearest integer, ties to the even one. -/
def roundHalfEven (n d : Nat) : Nat :=
  let q := n / d
  let r := n % d
  if 2 * r < d then q
  else if d < 2 * r then q + 1
  else if q % 2 = 0 then q else q + 1

/-- The fraction `n / d` multiplied by `2 ^ k`, as a numerator and a denominator. -/
def scaleFraction (n d : Nat) (k : Int) : Nat × Nat :=
  if 0 ≤ k then (n * 2 ^ k.toNat, d) else (n, d * 2 ^ (-k).toNat)

/-- Number of binary digits of `n` (`fuel` bounds the recursion; `fuel = n` suffices). -/
def bitLength : Nat → Nat → Nat
  | 0, _ => 0
  | fuel + 1, n => if n = 0 then 0 else bitLength fuel (n / 2) + 1

/-- The exponent `e` with `2 ^ e ≤ n / d < 2 ^ (e + 1)`, for positive `n` and `d`. -/
def binaryExponent (n d : Nat) : Int :=
  let e0 : Int := (bitLength n n : Int) - (bitLength d d : Int)
  let s := scaleFraction n d (-e0)
  if s.2 ≤ s.1 then e0 else e0 - 1

/-- The IEEE binary64 value nearest to the positive fraction `n / d`: a 53-bit
significand, round to nearest, ties to even.  The exponent range is not limited
(no overflow to infinity, no subnormal numbers). -/
def roundRatio (n d : Nat) : ℚ :=
  let e := binaryExponent n d
  let s := scaleFraction n d (52 - e)
  let m := roundHalfEven s.1 s.2
  let v := scaleFraction m 1 (e - 52)
  (v.1 : ℚ) / (v.2 : ℚ)

/-- Rounding of an exact value to `double`, as done by each arithmetic operation, by a
floating literal of the source and by `atof`. -/
def roundDouble (x : ℚ) : ℚ :=
  if x = 0 then 0
  else if 0 < x then roundRatio x.num.natAbs x.den
  else - roundRatio x.num.natAbs x.den

/-- Line 115: `static_cast<unsigned int>( 1.0 / spacing[0] + 1 )` for a `double`
`spacing`: the quotient and the sum are each rounded to `double`, and the conversion
truncates toward zero.  The conversion is defined by the language when the truncated
value is below `2^32`, and the model reduces it modulo `2^32`. -/
def sampleCount (spacing : ℚ) : Nat :=
  toUnsigned (floatToInt (roundDouble (roundDouble (1 / spacing) + 1)))

/-- The settings handed to the fitting filter at lines 106-144. -/
structure FitConfig where
  spacing : ℚ
  size : Nat
  order : Nat
  ncps : Nat
  nlevels : Nat
  close : Nat
deriving DecidableEq

/-- Lines 106-144 of `FitBSplineCurveToPoints`: each setting starts at its default and
is overwritten from `argv` when `argc` is large enough.  `atof` is the C library
function (its result is a `double`), `argc` is the length of `argv`, and the literal
`0.001` is the `double` nearest to it. -/
def fitConfig (atof : String → ℚ) (argv : List String) : FitConfig :=
  let argc := argv.length
  let spacing : ℚ := if argc > 6 then atof (argv.getD 6 "") else roundDouble 0.001
  let order : Nat := if argc > 3 then toUnsigned (atoi (argv.getD 3 "")) else 3
  let ncps : Nat :=
    if argc > 5 then toUnsigned (atoi (argv.getD 5 "")) else toUnsigned ((order : Int) + 1)
  let nlevels : Nat := if argc > 4 then toUnsigned (atoi (argv.getD 4 "")) else 5
  let close : Nat := if argc > 7 then toUnsigned (atoi (argv.getD 7 "")) else 0
  { spacing := spacing
    size := sampleCount spacing
    order := order
    ncps := ncps
    nlevels := nlevels
    close := close }

/-- Lines 155-160: what is printed for one sample `vector` of the fitted curve. -/
def printSample [Zero α] (PointDimension : Nat) (vector : List α) : List (Tok α) :=
  ((List.range (PointDimension - 1)).flatMap fun d =>
      [Tok.num (vector.getD d 0), Tok.str ","]) ++
    [Tok.num (vector.getD (PointDimension - 1) 0), Tok.endl]

/-- Lines 151-161: the loop over the output image of the filter, which holds
`config.size` samples; `curve k` is the sample the filter computed at position `k`. -/
def printCurve [Zero α] (PointDimension : Nat) (config : FitConfig) (curve : Nat → List α) :
    List (Tok α) :=
  ((List.range config.size).map curve).flatMap (printSample PointDimension)

/-- Value of the macro `EXIT_FAILURE`. -/
def EXIT_FAILURE : Int := 1

/-- What `main` of the curve fitter does: print the usage text and exit, report an
unsupported dimension and exit, or run `FitBSplineCurveToPoints<PointDimension>` with
the configuration read from `argv`. -/
inductive CurveFitterOutcome where
  | usage (status : Int)
  | unsupported (message : String) (status : Int)
  | fit (PointDimension : Nat) (config : FitConfig)
deriving DecidableEq

/-- Lines 182-212: `main` of the curve fitter. -/
def curveFitterMain (atof : String → ℚ) (argv : List String) : CurveFitterOutcome :=
  if argv.length < 4 then CurveFitterOutcome.usage 1
  else
    let d := atoi (argv.getD 1 "")
    if d = 1 then CurveFitterOutcome.fit 2 (fitConfig atof argv)
    else if d = 2 then CurveFitterOutcome.fit 2 (fitConfig atof argv)
    else if d = 3 then CurveFitterOutcome.fit 3 (fitConfig atof argv)
    else if d = 4 then CurveFitterOutcome.fit 4 (fitConfig atof argv)
    else CurveFitterOutcome.unsupported "Unsupported dimension" EXIT_FAILURE

/-- The fit configuration the specification describes for an invocation with the
optional arguments `optional` (a prefix of order, nlevels, numCtrlPts, spacing,
closed): each omitted argument at its default, each supplied one from its position. -/
def specFitConfig (atof : String → ℚ) (optional : List String) : FitConfig :=
  let spacing : ℚ := (optional[3]?.map atof).getD (roundDouble 0.001)
  let order : Nat := (optional[0]?.map fun s => toUnsigned (atoi s)).getD 3
  { spacing := spacing
    size := sampleCount spacing
    order := order
    ncps := (optional[2]?.map fun s => toUnsigned (atoi s)).getD (toUnsigned ((order : Int) + 1))
    nlevels := (optional[1]?.map fun s => toUnsigned (atoi s)).getD 5
    close := (optional[4]?.map fun s => toUnsigned (atoi s)).getD 0 }

/-- A sample `atof` for the examples: it reads the numerals `0.01` and `0.00001` as the
nearest `double` and gives `0` on every other text. -/
def sampleAtof (s : String) : ℚ :=
  if s = "0.01" then roundDouble (1 / 100)
  else if s = "0.00001" then roundDouble (1 / 100000)
  else 0

/-- An event of the tokenising loop: the assignment `vector[index] = element` for the
field `token`, or the assignment `weight = element` for the field `token`. -/
inductive ParseEvent where
  | writeSlot (index : Nat) (token : List Char)
  | readWeight (token : List Char)
deriving DecidableEq

/-- The tokenising loop of lines 48-66 (as `tokenLoop`), recording each assignment it
makes in order. -/
def tokenLoopLog (rd : List Char → Option α) (PointDimension : Nat) :
    Nat → ParseState α → List ParseEvent → Option (ParseState α × List ParseEvent)
  | 0, _, _ => none
  | fuel + 1, st, log =>
    match find st.line ',' with
    | none => some (st, log)
    | some pos =>
      let token := st.line.take pos
      let element := rd token
      if st.dimensionCount = PointDimension then
        some ({ st with weight := element }, log ++ [ParseEvent.readWeight token])
      else
        tokenLoopLog rd PointDimension fuel
          { st with
            vector := st.vector.set st.dimensionCount element
            dimensionCount := st.dimensionCount + 1
            line := st.line.drop (pos + 1) }
          (log ++ [ParseEvent.writeSlot st.dimensionCount token])

/-- The slot indices written, in order. -/
def writeIndices : List ParseEvent → List Nat
  | [] => []
  | ParseEvent.writeSlot i _ :: rest => i :: writeIndices rest
  | ParseEvent.readWeight _ :: rest => writeIndices rest

/-- The fields read as a weight, in order. -/
def weightReads : List ParseEvent → List (List Char)
  | [] => []
  | ParseEvent.writeSlot _ _ :: rest => weightReads rest
  | ParseEvent.readWeight t :: rest => t :: weightReads rest

/-- The fields the loop converted to a number, in order. -/
def tokensRead : List ParseEvent → List (List Char)
  | [] => []
  | ParseEvent.writeSlot _ t :: rest => t :: tokensRead rest
  | ParseEvent.readWeight t :: rest => t :: tokensRead rest

/-- The assignments expected on a line made of the comma-free fields `fields`, when
`c` coordinates are already assigned: the fields that are followed by a comma fill the
slots `c, c + 1, ...` up to the dimension, and the next field, if it exists and is
followed by a comma, is read as the weight. -/
def expectedEvents (PointDimension c : Nat) (fields : List (List Char)) : List ParseEvent :=
  (((fields.take (min (fields.length - 1) (PointDimension - c))).enumFrom c).map fun it =>
      ParseEvent.writeSlot it.1 it.2) ++
    (if PointDimension - c < fields.length - 1 then
       [ParseEvent.readWeight (fields.getD (PointDimension - c) [])]
     else [])

end CurveFitterMain

/-! ## ContourExtractor (`ExtractContours`) -/

section ContourExtractor

/-- An observable step of the contour extractor: the usage text on standard output, a
message on standard error, `exit`, reading the input image in a given dimension, the
contour filter (volumetric or slice by slice, with the value passed to
`SetFullyConnected` when that member is called), and writing the output image. -/
inductive ContourAction where
  | usage
  | error (message : String)
  | exit (status : Int)
  | read (ImageDimension : Nat) (fileName : String)
  | contour (sliceBySlice : Bool) (fullyConnected : Option Bool)
  | write (fileName : String)
deriving DecidableEq

/-- Lines 23-26 and 76-79: `SetFullyConnected` is called only when `argc > 4`, with
`atof( argv[4] )` converted to `bool` (true when the value, taken exactly, is not
zero). -/
def connectivityFlag (atof : String → ℚ) (argv : List String) : Option Bool :=
  if argv.length > 4 then some (decide (atof (argv.getD 4 "") ≠ 0)) else none

/-- Lines 7-57: the volumetric pipeline `ExtractContours<ImageDimension>`. -/
def ExtractContours (atof : String → ℚ) (ImageDimension : Nat) (argv : List String) :
    List ContourAction :=
  [ContourAction.read ImageDimension (argv.getD 2 ""),
    ContourAction.contour false (connectivityFlag atof argv),
    ContourAction.write (argv.getD 3 "")]

/-- Lines 59-90: the slice-by-slice pipeline on a 3-D image. -/
def ExtractContoursSliceBySlice (atof : String → ℚ) (argv : List String) :
    List ContourAction :=
  [ContourAction.read 3 (argv.getD 2 ""),
    ContourAction.contour true (connectivityFlag atof argv),
    ContourAction.write (argv.getD 3 "")]

/-- Lines 92-120: `main` of the contour extractor. -/
def contourMain (atof : String → ℚ) (argv : List String) : List ContourAction :=
  if argv.length < 4 then [ContourAction.usage, ContourAction.exit 1]
  else if (argv.getD 1 "").toList.head? = some 'X' then ExtractContoursSliceBySlice atof argv
  else
    let d := atoi (argv.getD 1 "")
    if d = 2 then ExtractContours atof 2 argv
    else if d = 3 then ExtractContours atof 3 argv
    else [ContourAction.error "Unsupported dimension", ContourAction.exit EXIT_FAILURE]

/-- The images read by a run. -/
def imagesRead : List ContourAction → List String
  | [] => []
  | ContourAction.read _ f :: rest => f :: imagesRead rest
  | _ :: rest => imagesRead rest

end ContourExtractor

/-! ## GaborKernelFunction (`itkGaborKernelFunction.h`) -/

section Gabor

variable {α : Type}

/-- The member variables of `GaborKernelFunction`. -/
structure GaborKernelFunction (α : Type) where
  m_Sigma : α
  m_Frequency : α
  m_PhaseOffset : α
  m_CalculateImaginaryPart : Bool

/-- Lines 62-76: `Evaluate`.  The functions `exp`, `cos`, `sin` and the constant `pi`
are those of the mathematical library. -/
def GaborKernelFunction.Evaluate [Field α] (exp cos sin : α → α) (pi : α)
    (k : GaborKernelFunction α) (u : α) : α :=
  let parameter := (u / k.m_Sigma) * (u / k.m_Sigma)
  let envelope := exp (-0.5 * parameter)
  let phase := 2.0 * pi * k.m_Frequency * u + k.m_PhaseOffset
  if k.m_CalculateImaginaryPart then envelope * sin phase else envelope * cos phase

/-- Lines 79-88: `EvaluateComplex`, the pair of the real and the imaginary part. -/
def GaborKernelFunction.EvaluateComplex [Field α] (exp cos sin : α → α) (pi : α)
    (k : GaborKernelFunction α) (u : α) : α × α :=
  let parameter := (u / k.m_Sigma) * (u / k.m_Sigma)
  let envelope := exp (-0.5 * parameter)
  let phase := 2.0 * pi * k.m_Frequency * u + k.m_PhaseOffset
  (envelope * cos phase, envelope * sin phase)

end Gabor

/-! ## Sample data, the relabel statistics and the literal slice loop -/

section Samples

/-- Model of `RelabelComponentImageFilter::GetSizeOfObjectInPhysicalUnits`: the size of
the object with label `obj`, and `0` when there is no such object. -/
def GetSizeOfObjectInPhysicalUnits (sizes : List ℚ) (obj : Nat) : ℚ :=
  if 0 < obj ∧ obj ≤ sizes.length then sizes.getD (obj - 1) 0 else 0

/-- A sample displacement field: displacement `(5, 0)` at every voxel. -/
def shiftField (_ix : List Int) : List Int := [5, 0]

/-- Model of `IsInsideBuffer` for a mask of unit spacing and origin zero probed at
integer coordinates: the point has one coordinate per dimension, each within the
region. -/
def unitInsideBuffer (region : List (Int × Nat)) (pt : List Int) : Bool :=
  decide (pt.length = region.length) &&
    (List.zip region pt).all fun rx => decide (rx.1.1 ≤ rx.2) && decide (rx.2 < rx.1.1 + rx.1.2)

/-- The loop `for ( int s = size_z - 1; s >= 0; s-- )` of lines 302-376 written as a
recursion on `s + 1`, recording the slice indices in the order visited. -/
def repairLoop (sliceFilter : List Int → List Int) :
    Nat → List Nat × List (List Int) → List Nat × List (List Int)
  | 0, acc => acc
  | s + 1, acc =>
    repairLoop sliceFilter s
      (acc.1 ++ [s],
        acc.2.set s (writeBackSlice (sliceFilter (acc.2.getD s [])) (acc.2.getD s [])))

end Samples

/-! ## General lemmas on lists and loops -/

section Auxiliary

variable {α β γ : Type}

/-- A property that holds initially and is kept by every step holds after a loop. -/
theorem foldl_preserves (P : β → Prop) (f : β → α → β) (l : List α) (b : β)
    (h0 : P b) (hstep : ∀ b a, P b → P (f b a)) : P (l.foldl f b) := by
  induction l generalizing b with
  | nil => simpa using h0
  | cons a l ih => exact ih (f b a) (hstep b a h0)

/-- Elementwise property of a lockstep traversal. -/
theorem forall_mem_zipWith (P : α → Prop) (Q : β → Prop) (R : γ → Prop) (f : α → β → γ)
    (hf : ∀ a b, P a → Q b → R (f a b)) (l₁ : List α) (l₂ : List β)
    (h₁ : ∀ a ∈ l₁, P a) (h₂ : ∀ b ∈ l₂, Q b) : ∀ c ∈ List.zipWith f l₁ l₂, R c := by
  induction l₁ generalizing l₂ with
  | nil => intro c hc; simp at hc
  | cons a l₁ ih =>
    cases l₂ with
    | nil => intro c hc; simp at hc
    | cons b l₂ =>
      intro c hc
      rw [List.zipWith_cons_cons, List.mem_cons] at hc
      rcases hc with rfl | hc
      · exact hf a b (h₁ a (List.mem_cons_self _ _)) (h₂ b (List.mem_cons_self _ _))
      · exact ih l₂ (fun x hx => h₁ x (List.mem_cons_of_mem _ hx))
          (fun x hx => h₂ x (List.mem_cons_of_mem _ hx)) c hc

/-- Overwriting one position keeps an elementwise property that the new value has. -/
theorem forall_mem_set (P : α → Prop) (l : List α) (i : Nat) (a : α)
    (hl : ∀ x ∈ l, P x) (ha : P a) : ∀ x ∈ l.set i a, P x := by
  intro x hx
  rcases List.mem_or_eq_of_mem_set hx with h | h
  · exact hl x h
  · exact h ▸ ha

/-- A default-valued lookup has every elementwise property of the list and of the
default. -/
theorem getD_of_forall_mem (P : α → Prop) (l : List α) (i : Nat) (d : α)
    (hl : ∀ x ∈ l, P x) (hd : P d) : P (l.getD i d) := by
  rw [List.getD_eq_getElem?_getD]
  cases h : l[i]? with
  | none => simpa using hd
  | some x => simpa using hl x (List.getElem?_mem h)

end Auxiliary

/-! ## LungSegmenter: properties -/

section LungSegmenterProofs

/-- The remap never produces a label above `2`. -/
theorem remapLabel_le_two (need : Bool) (v : Int) : remapLabel need v ≤ 2 := by
  unfold remapLabel
  cases need <;> simp <;> split_ifs <;> omega

/-- The parts of the remap that do not depend on the flag: `0` becomes `1`, `1`
becomes `0`, and every label above `3` becomes `0`. -/
theorem remapLabel_fixed_cases (need : Bool) :
    remapLabel need 0 = 1 ∧ remapLabel need 1 = 0 ∧
      ∀ v : Int, 3 < v → remapLabel need v = 0 := by
  refine ⟨by simp [remapLabel], by simp [remapLabel], ?_⟩
  intro v hv
  unfold remapLabel
  split_ifs <;> omega

/-- After the cleanup a voxel is `0`, `1` or `2` as soon as the second relabelling
gave it a non-negative label. -/
theorem cleanupLabel_three_valued (need : Bool) (v it2 : Int) (h : 0 ≤ it2) :
    cleanupLabel need (remapLabel need v) it2 = 0 ∨
      cleanupLabel need (remapLabel need v) it2 = 1 ∨
      cleanupLabel need (remapLabel need v) it2 = 2 := by
  have hle := remapLabel_le_two need v
  unfold cleanupLabel
  split_ifs with h1 h2
  · left; rfl
  · rcases h2 with h2 | h2
    · right; right; exact h2
    · omega
  · omega

/-- The write-back of one slice keeps every elementwise property that the foreground
value has. -/
theorem writeBackSlice_preserves (P : Int → Prop) (hP : P ForegroundValue)
    (output slice : List Int) (h : ∀ v ∈ slice, P v) :
    ∀ v ∈ writeBackSlice output slice, P v := by
  unfold writeBackSlice
  refine foldl_preserves (fun sl => ∀ v ∈ sl, P v) _ _ _ h ?_
  intro sl io hsl
  by_cases hio : io.2 = ForegroundValue
  · simp only [hio, if_true]
    exact forall_mem_set P sl io.1 ForegroundValue hsl hP
  · simp only [hio, if_false]
    exact hsl

/-- The per-slice repair keeps every elementwise property that the foreground value
has. -/
theorem repairPass_preserves (P : Int → Prop) (hP : P ForegroundValue)
    (sliceFilter : List Int → List Int) (volume : List (List Int))
    (h : ∀ sl ∈ volume, ∀ v ∈ sl, P v) :
    ∀ sl ∈ repairPass sliceFilter volume, ∀ v ∈ sl, P v := by
  unfold repairPass
  refine foldl_preserves (fun vol => ∀ sl ∈ vol, ∀ v ∈ sl, P v) _ _ _ h ?_
  intro vol s hvol
  refine forall_mem_set (fun sl => ∀ v ∈ sl, P v) vol s _ hvol ?_
  refine writeBackSlice_preserves P hP _ _ ?_
  exact getD_of_forall_mem (fun sl => ∀ v ∈ sl, P v) vol s [] hvol (by simp)

/-- C6 (code defect): with `needToSeparateLungs = false` the remap sends the lung
label `2` to `1`, not to `2`; only with `needToSeparateLungs = true` is `2` kept. -/
theorem C6_remap_lung_label_lost : remapLabel false 2 = 1 ∧ remapLabel true 2 = 2 := by
  decide

/-- C7: if the second relabelling returns non-negative labels, every voxel of the
label volume after the remap pass, the cleanup pass and the per-slice write-back is
`0`, `1` or `2`, for either value of `needToSeparateLungs`, every slice filter and
every relabelled complement image. -/
theorem C7_output_three_valued (need : Bool) (relabel : List (List Int) → List (List Int))
    (sliceFilter : List Int → List Int) (relabeler3 : List (List Int))
    (hrel : ∀ vol, ∀ sl ∈ relabel vol, ∀ v ∈ sl, (0 : Int) ≤ v) :
    ∀ sl ∈ labelVolume need relabel sliceFilter relabeler3, ∀ v ∈ sl,
      v = 0 ∨ v = 1 ∨ v = 2 := by
  unfold labelVolume
  refine repairPass_preserves (fun v => v = 0 ∨ v = 1 ∨ v = 2) (by decide) _ _ ?_
  unfold cleanupPass
  refine forall_mem_zipWith (fun sl => ∀ a ∈ sl, ∃ v, a = remapLabel need v)
    (fun sl => ∀ b ∈ sl, (0 : Int) ≤ b) (fun sl => ∀ v ∈ sl, v = 0 ∨ v = 1 ∨ v = 2) _ ?_ _ _
    ?_ (hrel _)
  · intro s₁ s₂ h₁ h₂
    refine forall_mem_zipWith (fun a => ∃ v, a = remapLabel need v) (fun b => (0 : Int) ≤ b)
      (fun v => v = 0 ∨ v = 1 ∨ v = 2) _ ?_ s₁ s₂ h₁ h₂
    rintro a b ⟨v, rfl⟩ hb
    exact cleanupLabel_three_valued need v b hb
  · intro sl hsl a ha
    unfold remapPass at hsl
    rw [List.mem_map] at hsl
    obtain ⟨sl₀, -, rfl⟩ := hsl
    rw [List.mem_map] at ha
    obtain ⟨v, -, rfl⟩ := ha
    exact ⟨v, rfl⟩

/-- Witness for C7: on a two-slice volume, with the sample relabelling and the sample
slice filter, the voxel at position `2` of slice `1` of the result is `0`, `1` or `2`. -/
theorem C7_output_three_valued_witness :
    ((labelVolume false sampleRelabel sampleSliceFilter [[0, 1, 2], [3, 4, 5]]).getD 1
        []).getD 2 0 = 0 ∨
      ((labelVolume false sampleRelabel sampleSliceFilter [[0, 1, 2], [3, 4, 5]]).getD 1
        []).getD 2 0 = 1 ∨
      ((labelVolume false sampleRelabel sampleSliceFilter [[0, 1, 2], [3, 4, 5]]).getD 1
        []).getD 2 0 = 2 :=
  C7_output_three_valued false sampleRelabel sampleSliceFilter [[0, 1, 2], [3, 4, 5]]
    (by
      intro vol sl hsl v hv
      unfold sampleRelabel at hsl
      rw [List.mem_map] at hsl
      obtain ⟨sl₀, -, rfl⟩ := hsl
      rw [List.mem_map] at hv
      obtain ⟨x, -, rfl⟩ := hv
      split_ifs <;> decide)
    ((labelVolume false sampleRelabel sampleSliceFilter [[0, 1, 2], [3, 4, 5]]).getD 1 [])
    (by decide)
    (((labelVolume false sampleRelabel sampleSliceFilter [[0, 1, 2], [3, 4, 5]]).getD 1
      []).getD 2 0)
    (by decide)

/-- On every one-voxel image inside the mask whose intensity is below `2^31`, the scan
stores the intensity in `minValue` and never looks at `maxValue`, which keeps its
initial value `INT_MIN`. -/
theorem scanMinMax_single (v : ℚ) (hv : v < 2147483648) :
    scanMinMax [v] [1] = { minValue := floatToInt v, maxValue := INT_MIN } := by
  simp [scanMinMax, scanVoxel, intToFloat, hv]

/-- C8 (code defect): on a one-voxel image of intensity `5` inside the mask the scan
ends with `minValue = 5` and `maxValue` still `INT_MIN`; on the intensities
`5, 3, 1, 4` it ends with `maxValue = 4` although the largest intensity is `5`. -/
theorem C8_max_missed_by_else_branch :
    scanMinMax [5] [1] = { minValue := 5, maxValue := INT_MIN } ∧
      scanMinMax [5, 3, 1, 4] [1, 1, 1, 1] = { minValue := 1, maxValue := 4 } := by
  decide

end LungSegmenterProofs

/-! ## CurveFitter parser: properties -/

section ParserProofs

variable {α : Type}

/-- No position is found in a text without the delimiter. -/
theorem find_eq_none (f : List Char) (c : Char) (h : c ∉ f) : find f c = none := by
  induction f with
  | nil => rfl
  | cons x f ih =>
    rw [List.mem_cons, not_or] at h
    have hx : ¬ x = c := fun e => h.1 e.symm
    simp [find, hx, ih h.2]

/-- The first delimiter after a delimiter-free field is found at the field's length. -/
theorem find_append_delimiter (f rest : List Char) (c : Char) (h : c ∉ f) :
    find (f ++ c :: rest) c = some f.length := by
  induction f with
  | nil => simp [find]
  | cons x f ih =>
    rw [List.mem_cons, not_or] at h
    have hx : ¬ x = c := fun e => h.1 e.symm
    simp [find, hx, ih h.2]

/-- A line has at least as many characters as it has separating commas. -/
theorem length_joinFields (f : List Char) (fs : List (List Char)) :
    fs.length ≤ (joinFields (f :: fs)).length := by
  induction fs generalizing f with
  | nil => simp
  | cons g fs ih =>
    have h := ih g
    simp only [joinFields, List.length_append, List.length_cons]
    omega

/-- The tokenising loop on a line of comma-free fields, started with `done.length`
coordinates already assigned: it assigns the fields that are followed by a comma, up
to the dimension; if a further field followed by a comma remains, that field becomes
the weight and the loop stops; the text after the last comma is never read. -/
theorem tokenLoop_joinFields (rd : List Char → Option α) (PointDimension : Nat)
    (fs : List (List Char)) :
    ∀ (f : List Char) (fuel : Nat) (done : List (Option α)) (w : Option α),
      (∀ g ∈ f :: fs, ',' ∉ g) → done.length ≤ PointDimension → fs.length < fuel →
      tokenLoop rd PointDimension fuel
          { line := joinFields (f :: fs)
            vector := done ++ List.replicate (PointDimension - done.length) none
            weight := w
            dimensionCount := done.length } =
        some
          { line := joinFields ((f :: fs).drop (min fs.length (PointDimension - done.length)))
            vector := done ++
              ((f :: fs).take (min fs.length (PointDimension - done.length))).map rd ++
              List.replicate
                (PointDimension - done.length - min fs.length (PointDimension - done.length))
                none
            weight :=
              if PointDimension - done.length < fs.length then
                rd ((f :: fs).getD (PointDimension - done.length) [])
              else w
            dimensionCount := done.length + min fs.length (PointDimension - done.length) } := by
  induction fs with
  | nil =>
    intro f fuel done w hf hdone hfuel
    obtain ⟨fuel, rfl⟩ : ∃ k, fuel = k + 1 := ⟨fuel - 1, by simp at hfuel; omega⟩
    have hnone : find f ',' = none := find_eq_none f ',' (hf f (List.mem_cons_self _ _))
    simp [tokenLoop, joinFields, hnone]
  | cons g fs ih =>
    intro f fuel done w hf hdone hfuel
    obtain ⟨fuel, rfl⟩ : ∃ k, fuel = k + 1 := ⟨fuel - 1, by simp at hfuel; omega⟩
    have hfind : find (f ++ ',' :: joinFields (g :: fs)) ',' = some f.length :=
      find_append_delimiter f _ ',' (hf f (List.mem_cons_self _ _))
    by_cases hD : done.length = PointDimension
    · have hzero : PointDimension - done.length = 0 := by omega
      simp [tokenLoop, joinFields, hfind, hD]
    · have hlt : done.length < PointDimension := by omega
      obtain ⟨r, hr⟩ : ∃ r, PointDimension - done.length = r + 1 :=
        ⟨PointDimension - done.length - 1, by omega⟩
      have hr' : PointDimension - (done ++ [rd f]).length = r := by
        simp only [List.length_append, List.length_singleton]
        omega
      have hset : (done ++ List.replicate (r + 1) none).set done.length (rd f) =
          (done ++ [rd f]) ++ List.replicate r none := by
        rw [List.replicate_succ, List.set_append_right _ _ (le_refl _)]
        simp
      have hrec := ih g fuel (done ++ [rd f]) w
        (fun x hx => hf x (List.mem_cons_of_mem _ hx))
        (by simp only [List.length_append, List.length_singleton]; omega)
        (by simp only [List.length_cons] at hfuel; omega)
      have hlen1 : (done ++ [rd f]).length = done.length + 1 := by simp
      have hmin : min (g :: fs).length (r + 1) = min fs.length r + 1 := by
        simp only [List.length_cons]
        omega
      rw [hr'] at hrec
      simp only [hlen1] at hrec
      rw [hr, hmin]
      simp only [tokenLoop, joinFields, hfind, hD, if_false, List.take_left', List.drop_succ_cons,
        List.take_succ_cons, List.map_cons, List.getD_cons_succ, List.length_cons,
        Nat.add_lt_add_iff_right]
      have hdrop : List.drop (f.length + 1) (f ++ ',' :: joinFields (g :: fs)) =
          joinFields (g :: fs) := by
        rw [← List.drop_drop]
        simp
      simp only [hdrop, hset, hrec, Option.some.injEq, ParseState.mk.injEq, true_and]
      refine ⟨?_, ?_⟩
      · have hsub : r + 1 - (min fs.length r + 1) = r - min fs.length r := by omega
        rw [hsub]
        simp [List.append_assoc]
      · omega

/-- The parser on a line of comma-free fields `f, fs`: the first `min (n - 1) D` fields
are assigned as coordinates (`n` the number of fields, `D` the dimension), the other
coordinates stay unassigned, and the weight is read only when at least `D + 2` fields
are present, that is when the weight column is itself followed by a comma. -/
theorem parseLine_joinFields [One α] (rd : List Char → Option α) (PointDimension : Nat)
    (f : List Char) (fs : List (List Char)) (hf : ∀ g ∈ f :: fs, ',' ∉ g) :
    parseLine rd PointDimension (joinFields (f :: fs)) =
      some
        { line := joinFields ((f :: fs).drop (min fs.length PointDimension))
          vector := ((f :: fs).take (min fs.length PointDimension)).map rd ++
            List.replicate (PointDimension - min fs.length PointDimension) none
          weight :=
            if PointDimension < fs.length then rd ((f :: fs).getD PointDimension []) else some 1
          dimensionCount := min fs.length PointDimension } := by
  have h := tokenLoop_joinFields rd PointDimension fs f ((joinFields (f :: fs)).length + 1) []
    (some 1) hf (Nat.zero_le _) (Nat.lt_succ_of_le (length_joinFields f fs))
  simpa [parseLine, initialParseState] using h

/-- A line of exactly `D` comma-free fields (no trailing comma), `D ≥ 1`: the first
`D - 1` fields are assigned, the last coordinate is never assigned, and the weight
keeps its default. -/
theorem parseLine_exact_fields [One α] (rd : List Char → Option α) (PointDimension : Nat)
    (f : List Char) (fs : List (List Char)) (hf : ∀ g ∈ f :: fs, ',' ∉ g)
    (hn : fs.length + 1 = PointDimension) :
    (parseLine rd PointDimension (joinFields (f :: fs))).map ParseState.vector =
        some (((f :: fs).take fs.length).map rd ++ [none]) ∧
      parsedWeight rd PointDimension (joinFields (f :: fs)) = some (some 1) := by
  have hmin : min fs.length PointDimension = fs.length := by omega
  have hsub : PointDimension - fs.length = 1 := by omega
  have hlt : ¬ PointDimension < fs.length := by omega
  unfold parsedWeight
  rw [parseLine_joinFields rd PointDimension f fs hf, hmin, hsub]
  simp [hlt]

/-- A line of `D` coordinates and a weight column (`D + 1` comma-free fields, no
trailing comma): all `D` coordinates are assigned, and the weight column is not read,
the weight keeping its default. -/
theorem parseLine_weight_column [One α] (rd : List Char → Option α) (PointDimension : Nat)
    (f : List Char) (fs : List (List Char)) (hf : ∀ g ∈ f :: fs, ',' ∉ g)
    (hn : fs.length = PointDimension) :
    (parseLine rd PointDimension (joinFields (f :: fs))).map ParseState.vector =
        some (((f :: fs).take PointDimension).map rd) ∧
      parsedWeight rd PointDimension (joinFields (f :: fs)) = some (some 1) := by
  have hmin : min fs.length PointDimension = PointDimension := by omega
  have hlt : ¬ PointDimension < fs.length := by omega
  unfold parsedWeight
  rw [parseLine_joinFields rd PointDimension f fs hf, hmin]
  simp [hlt]

/-- C1 (code defect): on the file with lines `0,0` / `1,0` / `1,1` / `0,1` and
dimension `2` the loop ends at the last comma, so each stored vector has its first
coordinate assigned and its second coordinate never assigned. -/
theorem C1_last_coordinate_never_assigned :
    parsedVectors readNumber 2 ["0,0".toList, "1,0".toList, "1,1".toList, "0,1".toList] =
      [some [some 0, none], some [some 1, none], some [some 1, none], some [some 0, none]] := by
  decide

/-- C10 (code defect): on the line `0,0,5` with dimension `2` both coordinates are
assigned but the trailing weight `5` is never read: the stored weight is the default
`1`. -/
theorem C10_trailing_weight_never_read :
    parsedWeight readNumber 2 "0,0,5".toList = some (some 1) ∧
      (parseLine readNumber 2 "0,0,5".toList).map ParseState.vector =
        some [some 0, some 0] := by
  decide

end ParserProofs

/-! ## CurveFitter parametrization: properties -/

section ParametrizationProofs

variable {α : Type}

/-- The squared norm of a difference does not depend on the order of the operands. -/
theorem GetSquaredNorm_vsub_comm [CommRing α] (a b : List α) :
    GetSquaredNorm (vsub a b) = GetSquaredNorm (vsub b a) := by
  induction a generalizing b with
  | nil => cases b <;> simp [vsub, GetSquaredNorm]
  | cons x a ih =>
    cases b with
    | nil => simp [vsub, GetSquaredNorm]
    | cons y b =>
      have h := ih b
      simp only [vsub, GetSquaredNorm, List.zipWith_cons_cons, List.map_cons,
        List.sum_cons] at h ⊢
      rw [h]
      ring

/-- The norm of a difference does not depend on the order of the operands. -/
theorem GetNorm_vsub_comm [CommRing α] (sqrt : α → α) (a b : List α) :
    GetNorm sqrt (vsub a b) = GetNorm sqrt (vsub b a) := by
  unfold GetNorm
  rw [GetSquaredNorm_vsub_comm]

/-- Path length up to landmark `i + 1` is path length up to `i` plus one segment. -/
theorem arcLength_succ [Field α] (sqrt : α → α) (p : List (List α)) (i : Nat) :
    arcLength sqrt p (i + 1) =
      arcLength sqrt p i + GetNorm sqrt (vsub (p.getD (i + 1) []) (p.getD i [])) := by
  unfold arcLength
  rw [List.range_succ, List.map_append, List.sum_append]
  simp

/-- Path length up to landmark `i` only depends on the landmarks `0..i`. -/
theorem arcLength_append [Field α] (sqrt : α → α) (p q : List (List α)) (i : Nat)
    (hi : i < p.length) : arcLength sqrt (p ++ q) i = arcLength sqrt p i := by
  unfold arcLength
  congr 1
  apply List.map_congr_left
  intro k hk
  rw [List.mem_range] at hk
  rw [List.getD_append p q [] (k + 1) (by omega), List.getD_append p q [] k (by omega)]

/-- What the read loop leaves: the landmarks in order, parameter `0` for each, the
weights, and `totalDistance` equal to the path length up to the last landmark. -/
theorem readLandmarks_spec [Field α] (sqrt : α → α) (landmarks : List (List α × α)) :
    (readLandmarks sqrt landmarks).pointData = landmarks.map Prod.fst ∧
      (readLandmarks sqrt landmarks).points = List.replicate landmarks.length 0 ∧
      (readLandmarks sqrt landmarks).weights = landmarks.map Prod.snd ∧
      (readLandmarks sqrt landmarks).totalDistance =
        arcLength sqrt (landmarks.map Prod.fst) (landmarks.length - 1) ∧
      (readLandmarks sqrt landmarks).count = landmarks.length := by
  induction landmarks using List.reverseRecOn with
  | nil => simp [readLandmarks, initialFitState, arcLength]
  | append_singleton l x ih =>
    obtain ⟨hd, hp, hw, ht, hc⟩ := ih
    have hfold : readLandmarks sqrt (l ++ [x]) =
        storePoint sqrt (readLandmarks sqrt l) x.1 x.2 := by
      simp [readLandmarks, List.foldl_append]
    rw [hfold]
    refine ⟨?_, ?_, ?_, ?_, ?_⟩
    · simp [storePoint, hd]
    · simp [storePoint, hp, List.replicate_succ']
    · simp [storePoint, hw]
    · simp only [storePoint, hc, hd, ht, List.length_append, List.length_singleton,
        Nat.add_sub_cancel, List.map_append, List.map_cons, List.map_nil]
      by_cases hl : 0 < l.length
      · rw [if_pos hl]
        obtain ⟨m, hm⟩ : ∃ m, l.length = m + 1 := ⟨l.length - 1, by omega⟩
        have hlen : (List.map Prod.fst l).length = m + 1 := by simp [hm]
        rw [hm, Nat.add_sub_cancel, arcLength_succ,
          arcLength_append sqrt _ _ m (by omega),
          List.getD_append _ _ [] m (by omega),
          List.getD_append_right _ _ [] (m + 1) (by omega), hlen, Nat.sub_self,
          GetNorm_vsub_comm sqrt]
        simp
      · have h0 : l.length = 0 := by omega
        rw [if_neg hl, h0]
        simp [arcLength]
    · simp [storePoint, hc]

/-- What `m` iterations of the parametrization loop leave: `cumSum` is the path length
up to landmark `m` and the parameters `1..m` hold path length over `totalDistance`. -/
theorem parametrize_fold_spec [Field α] (sqrt : α → α) (st : FitState α) (m : Nat) :
    ((List.range' 1 m).foldl (parametrizeStep sqrt st) (0, st.points)).1 =
        arcLength sqrt st.pointData m ∧
      ((List.range' 1 m).foldl (parametrizeStep sqrt st) (0, st.points)).2.length =
        st.points.length ∧
      ∀ j, ((List.range' 1 m).foldl (parametrizeStep sqrt st) (0, st.points)).2[j]? =
        if 1 ≤ j ∧ j ≤ m ∧ j < st.points.length then
          some (arcLength sqrt st.pointData j / st.totalDistance)
        else st.points[j]? := by
  induction m with
  | zero =>
    refine ⟨by simp [arcLength], by simp, ?_⟩
    intro j
    have : ¬ (1 ≤ j ∧ j ≤ 0 ∧ j < st.points.length) := by omega
    rw [if_neg this]
    rfl
  | succ m ih =>
    obtain ⟨h1, h2, h3⟩ := ih
    rw [List.range'_concat, List.foldl_append]
    simp only [List.foldl_cons, List.foldl_nil, Nat.one_mul]
    have hc : (parametrizeStep sqrt st
        ((List.range' 1 m).foldl (parametrizeStep sqrt st) (0, st.points)) (1 + m)).1 =
        arcLength sqrt st.pointData (m + 1) := by
      simp only [parametrizeStep, h1]
      rw [arcLength_succ, Nat.add_comm 1 m, Nat.add_sub_cancel]
    refine ⟨hc, ?_, ?_⟩
    · simp only [parametrizeStep, List.length_set, h2]
    · intro j
      have hstep : (parametrizeStep sqrt st
          ((List.range' 1 m).foldl (parametrizeStep sqrt st) (0, st.points)) (1 + m)).2 =
          (((List.range' 1 m).foldl (parametrizeStep sqrt st) (0, st.points)).2).set (1 + m)
            (arcLength sqrt st.pointData (m + 1) / st.totalDistance) := by
        rw [← hc]
        rfl
      rw [hstep, List.getElem?_set, h2, h3 j]
      by_cases hj : 1 + m = j
      · subst hj
        by_cases hlt : 1 + m < st.points.length
        · have : (1 ≤ 1 + m ∧ 1 + m ≤ m + 1 ∧ 1 + m < st.points.length) := by omega
          rw [if_pos rfl, if_pos hlt, if_pos this, Nat.add_comm 1 m]
        · have h' : ¬ (1 ≤ 1 + m ∧ 1 + m ≤ m + 1 ∧ 1 + m < st.points.length) := by omega
          have h'' : ¬ (1 ≤ 1 + m ∧ 1 + m ≤ m ∧ 1 + m < st.points.length) := by omega
          rw [if_pos rfl, if_neg hlt, if_neg h']
          symm
          rw [List.getElem?_eq_none_iff]
          omega
      · rw [if_neg hj]
        by_cases hcond : 1 ≤ j ∧ j ≤ m ∧ j < st.points.length
        · have : 1 ≤ j ∧ j ≤ m + 1 ∧ j < st.points.length := by omega
          rw [if_pos hcond, if_pos this]
        · have : ¬ (1 ≤ j ∧ j ≤ m + 1 ∧ j < st.points.length) := by omega
          rw [if_neg hcond, if_neg this]

/-- The parameters of a landmark file: one per landmark, `0` for landmark `0` and path
length up to the landmark over total path length for the others. -/
theorem parametrize_spec [Field α] (sqrt : α → α) (landmarks : List (List α × α)) :
    (parametrize sqrt landmarks).length = landmarks.length ∧
      ∀ j, j < landmarks.length →
        (parametrize sqrt landmarks)[j]? =
          some (if j = 0 then 0
            else arcLength sqrt (landmarks.map Prod.fst) j /
              arcLength sqrt (landmarks.map Prod.fst) (landmarks.length - 1)) := by
  obtain ⟨hd, hp, -, ht, -⟩ := readLandmarks_spec sqrt landmarks
  obtain ⟨-, h2, h3⟩ := parametrize_fold_spec sqrt (readLandmarks sqrt landmarks)
    ((readLandmarks sqrt landmarks).points.length - 1)
  have hlen : (readLandmarks sqrt landmarks).points.length = landmarks.length := by
    rw [hp, List.length_replicate]
  unfold parametrize parametrizeLoop
  refine ⟨by rw [h2, hlen], ?_⟩
  intro j hj
  rw [h3 j, hlen, hd, ht, hp]
  by_cases h0 : j = 0
  · subst h0
    simp [List.getElem?_replicate, hj]
  · have : 1 ≤ j ∧ j ≤ landmarks.length - 1 ∧ j < landmarks.length := by omega
    rw [if_pos this, if_neg h0]

/-- Path length is non-decreasing in the landmark index when `sqrt` is non-negative. -/
theorem arcLength_mono [LinearOrderedField α] (sqrt : α → α) (hsqrt : ∀ x, 0 ≤ sqrt x)
    (p : List (List α)) (i j : Nat) (hij : i ≤ j) :
    arcLength sqrt p i ≤ arcLength sqrt p j := by
  induction j with
  | zero =>
    have : i = 0 := by omega
    rw [this]
  | succ j ih =>
    by_cases h : i = j + 1
    · rw [h]
    · have hle := ih (by omega)
      rw [arcLength_succ]
      have hseg : 0 ≤ GetNorm sqrt (vsub (p.getD (j + 1) []) (p.getD j [])) := hsqrt _
      linarith

/-- Path length is non-negative when `sqrt` is non-negative. -/
theorem arcLength_nonneg [LinearOrderedField α] (sqrt : α → α) (hsqrt : ∀ x, 0 ≤ sqrt x)
    (p : List (List α)) (i : Nat) : 0 ≤ arcLength sqrt p i := by
  have h := arcLength_mono sqrt hsqrt p 0 i (Nat.zero_le i)
  simpa [arcLength] using h

/-- The path through the four landmarks of `squareLandmarks` has length `3`. -/
theorem squareLandmarks_length :
    arcLength Real.sqrt (squareLandmarks.map Prod.fst) (squareLandmarks.length - 1) = 3 := by
  norm_num [squareLandmarks, arcLength, GetNorm, GetSquaredNorm, vsub, List.range_succ]

/-- C2: for landmarks `p_0..p_(n-1)` with `n ≥ 2` and positive total path length (real
arithmetic, Euclidean norm), landmark `0` gets parameter `0`, landmark `i > 0` gets the
path length up to `i` divided by the total path length, every parameter lies in
`[0,1]`, and the last landmark gets exactly `1`; the `cumSum` reached by the loop equals
the `totalDistance` accumulated while reading. -/
theorem C2_parametrization (landmarks : List (List ℝ × ℝ)) (hn : 2 ≤ landmarks.length)
    (hpos : 0 < arcLength Real.sqrt (landmarks.map Prod.fst) (landmarks.length - 1)) :
    (parametrize Real.sqrt landmarks)[0]? = some 0 ∧
      (∀ i, 0 < i → i < landmarks.length →
        (parametrize Real.sqrt landmarks)[i]? =
          some (arcLength Real.sqrt (landmarks.map Prod.fst) i /
            arcLength Real.sqrt (landmarks.map Prod.fst) (landmarks.length - 1))) ∧
      (∀ i, i < landmarks.length →
        ∃ t, (parametrize Real.sqrt landmarks)[i]? = some t ∧ 0 ≤ t ∧ t ≤ 1) ∧
      (parametrize Real.sqrt landmarks)[landmarks.length - 1]? = some 1 ∧
      (parametrizeLoop Real.sqrt (readLandmarks Real.sqrt landmarks)).1 =
        (readLandmarks Real.sqrt landmarks).totalDistance := by
  obtain ⟨-, hget⟩ := parametrize_spec Real.sqrt landmarks
  have hpos_ne : arcLength Real.sqrt (landmarks.map Prod.fst) (landmarks.length - 1) ≠ 0 :=
    ne_of_gt hpos
  refine ⟨?_, ?_, ?_, ?_, ?_⟩
  · rw [hget 0 (by omega), if_pos rfl]
  · intro i hi hlt
    rw [hget i hlt, if_neg (by omega)]
  · intro i hlt
    refine ⟨_, hget i hlt, ?_, ?_⟩
    · split_ifs
      · exact le_refl _
      · exact div_nonneg (arcLength_nonneg Real.sqrt Real.sqrt_nonneg _ _) (le_of_lt hpos)
    · split_ifs
      · exact zero_le_one
      · rw [div_le_one hpos]
        exact arcLength_mono Real.sqrt Real.sqrt_nonneg _ _ _ (by omega)
  · rw [hget _ (by omega), if_neg (by omega), div_self hpos_ne]
  · obtain ⟨hd, hp, -, ht, -⟩ := readLandmarks_spec Real.sqrt landmarks
    obtain ⟨h1, -, -⟩ := parametrize_fold_spec Real.sqrt (readLandmarks Real.sqrt landmarks)
      ((readLandmarks Real.sqrt landmarks).points.length - 1)
    unfold parametrizeLoop
    rw [h1, ht, hd, hp, List.length_replicate]

/-- Witness for C2: on the four landmarks `(0,0)`, `(1,0)`, `(1,1)`, `(0,1)` the total
path length is `3 > 0` and the last landmark gets parameter `1`. -/
theorem C2_parametrization_witness :
    (parametrize Real.sqrt squareLandmarks)[squareLandmarks.length - 1]? = some 1 :=
  (C2_parametrization squareLandmarks (by simp [squareLandmarks])
    (by rw [squareLandmarks_length]; norm_num)).2.2.2.1

/-- C3: for landmarks with positive total path length (real arithmetic, Euclidean
norm) and every index `i` with `i + 1 < n`, the parameter of landmark `i` is at most
the parameter of landmark `i + 1`. -/
theorem C3_parametrization_monotone (landmarks : List (List ℝ × ℝ))
    (hpos : 0 < arcLength Real.sqrt (landmarks.map Prod.fst) (landmarks.length - 1))
    (i : Nat) (hi : i + 1 < landmarks.length) :
    ∃ a b, (parametrize Real.sqrt landmarks)[i]? = some a ∧
      (parametrize Real.sqrt landmarks)[i + 1]? = some b ∧ a ≤ b := by
  obtain ⟨-, hget⟩ := parametrize_spec Real.sqrt landmarks
  refine ⟨_, _, hget i (by omega), hget (i + 1) hi, ?_⟩
  rw [if_neg (Nat.succ_ne_zero i)]
  split_ifs
  · exact div_nonneg (arcLength_nonneg Real.sqrt Real.sqrt_nonneg _ _) (le_of_lt hpos)
  · exact div_le_div_of_nonneg_right
      (arcLength_mono Real.sqrt Real.sqrt_nonneg _ _ _ (Nat.le_succ i)) (le_of_lt hpos)

/-- Witness for C3: on the four landmarks `(0,0)`, `(1,0)`, `(1,1)`, `(0,1)` the
parameters of landmarks `1` and `2` are in order. -/
theorem C3_parametrization_monotone_witness :
    ∃ a b, (parametrize Real.sqrt squareLandmarks)[1]? = some a ∧
      (parametrize Real.sqrt squareLandmarks)[1 + 1]? = some b ∧ a ≤ b :=
  C3_parametrization_monotone squareLandmarks
    (by rw [squareLandmarks_length]; norm_num) 1 (by simp [squareLandmarks])

end ParametrizationProofs

/-! ## DeformationFieldLandmarkExporter: properties -/

section ExporterProofs

variable {α : Type}

/-- In an ordered ring the squared norm vanishes exactly for the zero vector. -/
theorem GetSquaredNorm_eq_zero_iff [LinearOrderedRing α] (v : List α) :
    GetSquaredNorm v = 0 ↔ ∀ x ∈ v, x = 0 := by
  induction v with
  | nil => simp [GetSquaredNorm]
  | cons x v ih =>
    have hrest : 0 ≤ GetSquaredNorm v := by
      unfold GetSquaredNorm
      apply List.sum_nonneg
      intro y hy
      rw [List.mem_map] at hy
      obtain ⟨z, -, rfl⟩ := hy
      exact mul_self_nonneg z
    have hcons : GetSquaredNorm (x :: v) = x * x + GetSquaredNorm v := by
      simp [GetSquaredNorm]
    rw [hcons, add_eq_zero_iff_of_nonneg (mul_self_nonneg x) hrest, mul_self_eq_zero, ih]
    simp

/-- The emission condition in the specification's words is the condition the loop
body tests: squared norm not zero, and the test of line 109 on the probe point. -/
theorem emitsPair_eq_true_iff [LinearOrderedRing α] (ImageDimension type : Nat)
    (field toPhysical : List Int → List α) (IsInsideBuffer : List α → Bool)
    (Evaluate : List α → Nat) (ix : List Int) :
    emitsPair ImageDimension type field toPhysical IsInsideBuffer Evaluate ix = true ↔
      GetSquaredNorm (field ix) ≠ 0 ∧
        maskAccepts IsInsideBuffer Evaluate
          (probePoint ImageDimension type (toPhysical ix) (field ix)) = true := by
  unfold emitsPair maskAccepts
  rw [Bool.and_eq_true, List.any_eq_true, Ne, GetSquaredNorm_eq_zero_iff]
  constructor
  · rintro ⟨⟨x, hx, hne⟩, h⟩
    refine ⟨fun hall => ?_, h⟩
    simp [hall x hx] at hne
  · rintro ⟨hne, h⟩
    refine ⟨?_, h⟩
    by_contra hcon
    apply hne
    intro x hx
    by_contra hx0
    exact hcon ⟨x, hx, by simpa using hx0⟩

/-- The loop body either appends one line to each stream and increments the index
(when the emission condition holds) or leaves the state as it is. -/
theorem visitVoxel_eq [LinearOrderedRing α] (ImageDimension type : Nat)
    (field toPhysical : List Int → List α) (IsInsideBuffer : List α → Bool)
    (Evaluate : List α → Nat) (st : ExportState α) (ix : List Int) :
    visitVoxel ImageDimension type field toPhysical IsInsideBuffer Evaluate st ix =
      if emitsPair ImageDimension type field toPhysical IsInsideBuffer Evaluate ix = true then
        { strM := st.strM ++ movingLine ImageDimension (toPhysical ix) st.index
          strF := st.strF ++ fixedLine ImageDimension (toPhysical ix) (field ix) st.index
          index := st.index + 1 }
      else st := by
  have hiff := emitsPair_eq_true_iff ImageDimension type field toPhysical IsInsideBuffer
    Evaluate ix
  unfold visitVoxel
  by_cases h0 : GetSquaredNorm (field ix) = 0
  · have hne : ¬ emitsPair ImageDimension type field toPhysical IsInsideBuffer Evaluate ix
        = true := fun h => (hiff.1 h).1 h0
    simp only [h0, if_true, if_neg hne]
  · by_cases hm : maskAccepts IsInsideBuffer Evaluate
        (probePoint ImageDimension type (toPhysical ix) (field ix)) = true
    · have he := hiff.2 ⟨h0, hm⟩
      simp only [h0, if_false, hm, if_true, he]
    · have hne : ¬ emitsPair ImageDimension type field toPhysical IsInsideBuffer Evaluate ix
          = true := fun h => hm (hiff.1 h).2
      simp only [h0, if_false, hm, if_neg hne]
      rfl

/-- The voxel loop over any list of voxels appends, for the voxels that satisfy the
emission condition and in their order, one line per stream numbered from the current
index. -/
theorem visit_fold_spec [LinearOrderedRing α] (ImageDimension type : Nat)
    (field toPhysical : List Int → List α) (IsInsideBuffer : List α → Bool)
    (Evaluate : List α → Nat) (voxels : List (List Int)) (st : ExportState α) :
    (voxels.foldl (visitVoxel ImageDimension type field toPhysical IsInsideBuffer Evaluate)
        st).strM =
        st.strM ++ (movingLines ImageDimension toPhysical st.index
          (voxels.filter
            (emitsPair ImageDimension type field toPhysical IsInsideBuffer Evaluate))).flatten ∧
      (voxels.foldl (visitVoxel ImageDimension type field toPhysical IsInsideBuffer Evaluate)
        st).strF =
        st.strF ++ (fixedLines ImageDimension field toPhysical st.index
          (voxels.filter
            (emitsPair ImageDimension type field toPhysical IsInsideBuffer Evaluate))).flatten ∧
      (voxels.foldl (visitVoxel ImageDimension type field toPhysical IsInsideBuffer Evaluate)
        st).index =
        st.index + (voxels.filter
          (emitsPair ImageDimension type field toPhysical IsInsideBuffer Evaluate)).length := by
  induction voxels generalizing st with
  | nil => simp [movingLines, fixedLines]
  | cons ix voxels ih =>
    rw [List.foldl_cons, visitVoxel_eq, List.filter_cons]
    by_cases he : emitsPair ImageDimension type field toPhysical IsInsideBuffer Evaluate ix
        = true
    · rw [if_pos he, if_pos he]
      obtain ⟨hM, hF, hI⟩ := ih
        { strM := st.strM ++ movingLine ImageDimension (toPhysical ix) st.index
          strF := st.strF ++ fixedLine ImageDimension (toPhysical ix) (field ix) st.index
          index := st.index + 1 }
      rw [hM, hF, hI]
      refine ⟨?_, ?_, ?_⟩
      · simp [movingLines, List.enumFrom_cons, List.append_assoc]
      · simp [fixedLines, List.enumFrom_cons, List.append_assoc]
      · simp only [List.length_cons]
        omega
    · rw [if_neg he, if_neg he]
      exact ih st

/-- The two output streams and the final index of a run, in closed form. -/
theorem exportLandmarks_spec [LinearOrderedRing α] (ImageDimension type : Nat)
    (field toPhysical : List Int → List α) (IsInsideBuffer : List α → Bool)
    (Evaluate : List α → Nat) (region : List (Int × Nat)) :
    (exportLandmarks ImageDimension type field toPhysical IsInsideBuffer Evaluate
        region).strM =
        sentinel ++ (movingLines ImageDimension toPhysical 1
          (emittedVoxels ImageDimension type field toPhysical IsInsideBuffer Evaluate
            region)).flatten ++ sentinel ∧
      (exportLandmarks ImageDimension type field toPhysical IsInsideBuffer Evaluate
        region).strF =
        sentinel ++ (fixedLines ImageDimension field toPhysical 1
          (emittedVoxels ImageDimension type field toPhysical IsInsideBuffer Evaluate
            region)).flatten ++ sentinel := by
  obtain ⟨hM, hF, -⟩ := visit_fold_spec ImageDimension type field toPhysical IsInsideBuffer
    Evaluate (rasterIndices region) { strM := sentinel, strF := sentinel, index := 1 }
  unfold exportLandmarks emittedVoxels
  exact ⟨by simp only [hM], by simp only [hF]⟩

/-- In dimension 2 or 3 a Moving line ends with its index and the end of line. -/
theorem movingLine_isPairLine [Zero α] (ImageDimension : Nat)
    (hdim : ImageDimension = 2 ∨ ImageDimension = 3) (pt : List α) (k : Nat) :
    IsPairLine (movingLine ImageDimension pt k) k := by
  rcases hdim with h | h
  · exact ⟨[Tok.num (pt.getD 0 0), Tok.str " ", Tok.num (pt.getD 1 0), Tok.str " ",
      Tok.str "0 "], by simp [movingLine, h], by simp⟩
  · exact ⟨[Tok.num (pt.getD 0 0), Tok.str " ", Tok.num (pt.getD 1 0), Tok.str " ",
      Tok.num (pt.getD 2 0), Tok.str " "], by simp [movingLine, h], by simp⟩

/-- In dimension 2 or 3 a Fixed line ends with its index and the end of line. -/
theorem fixedLine_isPairLine [Add α] [Zero α] (ImageDimension : Nat)
    (hdim : ImageDimension = 2 ∨ ImageDimension = 3) (pt disp : List α) (k : Nat) :
    IsPairLine (fixedLine ImageDimension pt disp k) k := by
  rcases hdim with h | h
  · exact ⟨[Tok.num (pt.getD 0 0 + disp.getD 0 0), Tok.str " ",
      Tok.num (pt.getD 1 0 + disp.getD 1 0), Tok.str " ", Tok.str "0 "],
      by simp [fixedLine, h], by simp⟩
  · exact ⟨[Tok.num (pt.getD 0 0 + disp.getD 0 0), Tok.str " ",
      Tok.num (pt.getD 1 0 + disp.getD 1 0), Tok.str " ",
      Tok.num (pt.getD 2 0 + disp.getD 2 0), Tok.str " "],
      by simp [fixedLine, h], by simp⟩

/-- In pull mode (`type = 0`) the probe point is the source point plus the
displacement, for vectors of the image dimension. -/
theorem probePoint_pull [Add α] [Zero α] (ImageDimension : Nat) (pt disp : List α)
    (hpt : pt.length = ImageDimension) (hdisp : disp.length = ImageDimension) :
    probePoint ImageDimension 0 pt disp = List.zipWith (fun a b => a + b) pt disp := by
  unfold probePoint
  apply List.ext_getElem
  · simp [hpt, hdisp]
  · intro i hi₁ hi₂
    simp at hi₁ hi₂
    simp [List.getD_eq_getElem, hi₂.1, hi₂.2]

/-- In push mode (any `type` other than `0`) the probe point is the source point, for
vectors of the image dimension. -/
theorem probePoint_push [Add α] [Zero α] (ImageDimension type : Nat) (pt disp : List α)
    (htype : type ≠ 0) (hpt : pt.length = ImageDimension) :
    probePoint ImageDimension type pt disp = pt := by
  unfold probePoint
  apply List.ext_getElem
  · simp [hpt]
  · intro i hi₁ hi₂
    simp [List.getD_eq_getElem, hi₂, htype]

/-- C4: in dimension 2 or 3, for every displacement field, mask and mode, each of the
Moving and Fixed streams is the sentinel line, then `n` pair lines, then the sentinel
line, with the same `n` in both, and the `k`-th pair line of each stream (counting from
`0`) ends with index `k + 1`: the indices run `1..n`. -/
theorem C4_output_structure [LinearOrderedRing α] (ImageDimension type : Nat)
    (field toPhysical : List Int → List α) (IsInsideBuffer : List α → Bool)
    (Evaluate : List α → Nat) (region : List (Int × Nat))
    (hdim : ImageDimension = 2 ∨ ImageDimension = 3) :
    ∃ linesM linesF : List (List (Tok α)),
      linesM.length = linesF.length ∧
      (exportLandmarks ImageDimension type field toPhysical IsInsideBuffer Evaluate
        region).strM = sentinel ++ linesM.flatten ++ sentinel ∧
      (exportLandmarks ImageDimension type field toPhysical IsInsideBuffer Evaluate
        region).strF = sentinel ++ linesF.flatten ++ sentinel ∧
      ∀ k, k < linesM.length →
        ∃ lineM lineF, linesM[k]? = some lineM ∧ linesF[k]? = some lineF ∧
          IsPairLine lineM (k + 1) ∧ IsPairLine lineF (k + 1) := by
  obtain ⟨hM, hF⟩ := exportLandmarks_spec ImageDimension type field toPhysical
    IsInsideBuffer Evaluate region
  refine ⟨_, _, ?_, hM, hF, ?_⟩
  · simp [movingLines, fixedLines, List.enumFrom_length]
  · intro k hk
    simp only [movingLines, List.length_map, List.enumFrom_length] at hk
    refine ⟨movingLine ImageDimension (toPhysical
        ((emittedVoxels ImageDimension type field toPhysical IsInsideBuffer Evaluate
          region)[k])) (k + 1),
      fixedLine ImageDimension (toPhysical
        ((emittedVoxels ImageDimension type field toPhysical IsInsideBuffer Evaluate
          region)[k]))
        (field ((emittedVoxels ImageDimension type field toPhysical IsInsideBuffer Evaluate
          region)[k])) (k + 1), ?_, ?_,
      movingLine_isPairLine ImageDimension hdim _ _,
      fixedLine_isPairLine ImageDimension hdim _ _ _⟩
    · simp [movingLines, List.getElem?_map, List.getElem?_enumFrom,
        List.getElem?_eq_getElem hk, Nat.add_comm]
    · simp [fixedLines, List.getElem?_map, List.getElem?_enumFrom,
        List.getElem?_eq_getElem hk, Nat.add_comm]

/-- Witness for C4: a 2-D run over a `2 x 2` region with the sample field, unit
geometry and a mask that accepts every point. -/
theorem C4_output_structure_witness :
    ∃ linesM linesF : List (List (Tok Int)),
      linesM.length = linesF.length ∧
      (exportLandmarks 2 0 sampleField sampleToPhysical (fun _ => true) (fun _ => 1)
        [(0, 2), (0, 2)]).strM = sentinel ++ linesM.flatten ++ sentinel ∧
      (exportLandmarks 2 0 sampleField sampleToPhysical (fun _ => true) (fun _ => 1)
        [(0, 2), (0, 2)]).strF = sentinel ++ linesF.flatten ++ sentinel ∧
      ∀ k, k < linesM.length →
        ∃ lineM lineF, linesM[k]? = some lineM ∧ linesF[k]? = some lineF ∧
          IsPairLine lineM (k + 1) ∧ IsPairLine lineF (k + 1) :=
  C4_output_structure 2 0 sampleField sampleToPhysical (fun _ => true) (fun _ => 1)
    [(0, 2), (0, 2)] (Or.inl rfl)

/-- C5: at every voxel the loop body emits a pair (one line appended to each stream,
index incremented) exactly when the displacement has a non-zero component, the probe
point is inside the mask buffer and the mask value there is positive, and otherwise
changes nothing; the probe point is source plus displacement for `type = 0` and the
source point for every other `type`; and the emitted lines are those of the voxels
satisfying the condition, in raster order. -/
theorem C5_emission_rule [LinearOrderedRing α] (ImageDimension type : Nat)
    (field toPhysical : List Int → List α) (IsInsideBuffer : List α → Bool)
    (Evaluate : List α → Nat) (region : List (Int × Nat)) :
    (∀ (st : ExportState α) (ix : List Int),
      visitVoxel ImageDimension type field toPhysical IsInsideBuffer Evaluate st ix =
        if emitsPair ImageDimension type field toPhysical IsInsideBuffer Evaluate ix = true
        then
          { strM := st.strM ++ movingLine ImageDimension (toPhysical ix) st.index
            strF := st.strF ++ fixedLine ImageDimension (toPhysical ix) (field ix) st.index
            index := st.index + 1 }
        else st) ∧
      (∀ pt disp : List α, pt.length = ImageDimension → disp.length = ImageDimension →
        probePoint ImageDimension 0 pt disp = List.zipWith (fun a b => a + b) pt disp) ∧
      (∀ pt disp : List α, type ≠ 0 → pt.length = ImageDimension →
        probePoint ImageDimension type pt disp = pt) ∧
      (exportLandmarks ImageDimension type field toPhysical IsInsideBuffer Evaluate
        region).strM =
        sentinel ++ (movingLines ImageDimension toPhysical 1
          ((rasterIndices region).filter
            (emitsPair ImageDimension type field toPhysical IsInsideBuffer
              Evaluate))).flatten ++ sentinel ∧
      (exportLandmarks ImageDimension type field toPhysical IsInsideBuffer Evaluate
        region).strF =
        sentinel ++ (fixedLines ImageDimension field toPhysical 1
          ((rasterIndices region).filter
            (emitsPair ImageDimension type field toPhysical IsInsideBuffer
              Evaluate))).flatten ++ sentinel ∧
      ((rasterIndices region).filter
        (emitsPair ImageDimension type field toPhysical IsInsideBuffer Evaluate)).Sublist
        (rasterIndices region) := by
  obtain ⟨hM, hF⟩ := exportLandmarks_spec ImageDimension type field toPhysical
    IsInsideBuffer Evaluate region
  exact ⟨fun st ix => visitVoxel_eq ImageDimension type field toPhysical IsInsideBuffer
      Evaluate st ix,
    fun pt disp hpt hdisp => probePoint_pull ImageDimension pt disp hpt hdisp,
    fun pt disp htype hpt => probePoint_push ImageDimension type pt disp htype hpt,
    hM, hF, List.filter_sublist _⟩

/-- Witness for C5: in a 2-D pull run with the sample field the probe point of the
source point `(0, 1)` with displacement `(1, 0)` is `(1, 1)`. -/
theorem C5_emission_rule_witness :
    probePoint 2 0 [(0 : Int), 1] [1, 0] = [1, 1] :=
  (C5_emission_rule 2 0 sampleField sampleToPhysical (fun _ => true) (fun _ => 1)
    [(0, 2), (0, 2)]).2.1 [0, 1] [1, 0] rfl rfl

end ExporterProofs

/-! ## CurveFitter command line and output: properties -/

section CurveFitterMainProofs

variable {α : Type}

/-- On a non-negative value the conversion to an integer is the floor. -/
theorem floatToInt_eq_floor (x : ℚ) (hx : 0 ≤ x) : floatToInt x = ⌊x⌋ := by
  unfold floatToInt
  rw [Rat.floor_def, Int.tdiv_eq_ediv (Rat.num_nonneg.2 hx) (Int.natCast_nonneg _)]

/-- When the quotient and the sum are computed without rounding, the sample count is
`floor (1 / spacing + 1)`, for a positive spacing whose count is below `2^32`. -/
theorem sampleCount_eq_floor (spacing : ℚ) (hpos : 0 < spacing)
    (hquot : roundDouble (1 / spacing) = 1 / spacing)
    (hsum : roundDouble (1 / spacing + 1) = 1 / spacing + 1)
    (hfit : ⌊1 / spacing + 1⌋ < 4294967296) :
    sampleCount spacing = ⌊1 / spacing + 1⌋.toNat := by
  have hx : (0 : ℚ) ≤ 1 / spacing + 1 := by positivity
  have hfl : 0 ≤ ⌊1 / spacing + 1⌋ := Int.floor_nonneg.2 hx
  unfold sampleCount toUnsigned
  rw [hquot, hsum, floatToInt_eq_floor _ hx, Int.emod_eq_of_lt hfl hfit]

/-- The sample count of the default spacing, the `double` nearest to `0.001`. -/
theorem sampleCount_default : sampleCount (roundDouble 0.001) = 1001 := by
  decide!

/-- One sample is printed on one line. -/
theorem count_endl_printSample [Zero α] [DecidableEq α] (PointDimension : Nat)
    (vector : List α) : (printSample PointDimension vector).count Tok.endl = 1 := by
  unfold printSample
  rw [List.count_append, List.count_flatMap]
  have hzero : (List.map (List.count Tok.endl ∘ fun d =>
      [Tok.num (vector.getD d 0), Tok.str ","]) (List.range (PointDimension - 1))).sum = 0 := by
    apply List.sum_eq_zero
    intro x hx
    rw [List.mem_map] at hx
    obtain ⟨d, -, rfl⟩ := hx
    simp
  rw [hzero]
  simp

/-- The number of lines printed is the number of samples. -/
theorem count_endl_flatMap_printSample [Zero α] [DecidableEq α] (PointDimension : Nat)
    (samples : List (List α)) :
    (samples.flatMap (printSample PointDimension)).count Tok.endl = samples.length := by
  induction samples with
  | nil => rfl
  | cons v samples ih =>
    rw [List.flatMap_cons, List.count_append, count_endl_printSample, ih, List.length_cons]
    omega

/-- Selecting the numbers among the items printed before the last coordinate gives the
coordinates in order. -/
theorem numbers_flatMap (g : Nat → α) (ds : List Nat) :
    (ds.flatMap fun d => [Tok.num (g d), Tok.str ","]).filterMap
        (fun t => match t with
          | Tok.num x => some x
          | _ => none) = ds.map g := by
  induction ds with
  | nil => rfl
  | cons d ds ih => simp [List.flatMap_cons, ih]

/-- The numbers printed for one sample are its first `PointDimension` coordinates. -/
theorem numbers_printSample [Zero α] (PointDimension : Nat) (hD : 1 ≤ PointDimension)
    (vector : List α) :
    (printSample PointDimension vector).filterMap
        (fun t => match t with
          | Tok.num x => some x
          | _ => none) =
      (List.range PointDimension).map fun d => vector.getD d 0 := by
  obtain ⟨n, rfl⟩ : ∃ n, PointDimension = n + 1 := ⟨PointDimension - 1, by omega⟩
  unfold printSample
  rw [Nat.add_sub_cancel, List.range_succ, List.map_append, List.filterMap_append,
    numbers_flatMap (fun d => vector.getD d 0)]
  rfl

/-- The configuration read from `argv` is the one the specification describes for the
optional arguments that follow the program name, the dimension and the file name. -/
theorem fitConfig_eq_spec (atof : String → ℚ) (prog dim file : String)
    (optional : List String) :
    fitConfig atof (prog :: dim :: file :: optional) = specFitConfig atof optional := by
  match optional with
  | [] => simp [fitConfig, specFitConfig]
  | [a] => simp [fitConfig, specFitConfig]
  | [a, b] => simp [fitConfig, specFitConfig]
  | [a, b, c] => simp [fitConfig, specFitConfig]
  | [a, b, c, d] => simp [fitConfig, specFitConfig]
  | a :: b :: c :: d :: e :: rest => simp [fitConfig, specFitConfig]

/-- C11 (as stated, fails): the size is not `floor (1 / spacing + 1)` in general.  With
the spacing argument `0.00001` the configured size is `100000`, while
`floor (1 / 0.00001 + 1)` is `100001`; and with the default spacing the configured size
is `1001`, while `floor (1 / s + 1)` taken exactly on the stored `double` `s` is
`1000`. -/
theorem C11_floor_formula_counterexample :
    (fitConfig sampleAtof
        ["prog", "2", "landmarks.txt", "3", "5", "4", "0.00001"]).size = 100000 ∧
      ⌊1 / (0.00001 : ℚ) + 1⌋.toNat = 100001 ∧
      (fitConfig sampleAtof ["prog", "2", "landmarks.txt", "3"]).size = 1001 ∧
      ⌊1 / (fitConfig sampleAtof ["prog", "2", "landmarks.txt", "3"]).spacing + 1⌋.toNat =
        1000 := by
  refine ⟨by decide!, by decide!, by decide!, by decide!⟩

/-- C11 (amended): without a spacing argument the spacing is the `double` `0.001` and
the configured size is `1001`; with a spacing argument the spacing is `atof( argv[6] )`
and the size is computed from it; the number of lines printed equals the configured
size; the size is the truncation of `1.0 / spacing + 1` evaluated in `double`
arithmetic, reduced to `unsigned int`; and it is `floor (1 / spacing + 1)` for a
positive spacing when the quotient and the sum are computed without rounding and the
count is below `2^32`. -/
theorem C11_sample_count (atof : String → ℚ) :
    (∀ argv : List String, argv.length ≤ 6 →
        (fitConfig atof argv).spacing = roundDouble 0.001 ∧
          (fitConfig atof argv).size = 1001) ∧
      (∀ argv : List String, 6 < argv.length →
        (fitConfig atof argv).spacing = atof (argv.getD 6 "") ∧
          (fitConfig atof argv).size = sampleCount (atof (argv.getD 6 ""))) ∧
      (∀ (argv : List String) (PointDimension : Nat) (curve : Nat → List ℚ),
        (printCurve PointDimension (fitConfig atof argv) curve).count Tok.endl =
          (fitConfig atof argv).size) ∧
      (∀ spacing : ℚ,
        sampleCount spacing =
          toUnsigned (floatToInt (roundDouble (roundDouble (1 / spacing) + 1)))) ∧
      (∀ spacing : ℚ, 0 < spacing → roundDouble (1 / spacing) = 1 / spacing →
        roundDouble (1 / spacing + 1) = 1 / spacing + 1 →
        ⌊1 / spacing + 1⌋ < 4294967296 →
        sampleCount spacing = ⌊1 / spacing + 1⌋.toNat) := by
  refine ⟨?_, ?_, ?_, fun _ => rfl, sampleCount_eq_floor⟩
  · intro argv hlen
    have h6 : ¬ argv.length > 6 := by omega
    have hs : (fitConfig atof argv).spacing = roundDouble 0.001 := by
      simp only [fitConfig, if_neg h6]
    have hsize : (fitConfig atof argv).size = sampleCount (fitConfig atof argv).spacing := rfl
    exact ⟨hs, by rw [hsize, hs]; exact sampleCount_default⟩
  · intro argv hlen
    have h6 : argv.length > 6 := hlen
    have hs : (fitConfig atof argv).spacing = atof (argv.getD 6 "") := by
      simp only [fitConfig, if_pos h6]
    have hsize : (fitConfig atof argv).size = sampleCount (fitConfig atof argv).spacing := rfl
    exact ⟨hs, by rw [hsize, hs]⟩
  · intro argv PointDimension curve
    unfold printCurve
    rw [count_endl_flatMap_printSample]
    simp

/-- Witness for C11 (amended): the spacing `1/4` is positive, its quotient `4` and the
sum `5` are computed without rounding, and the sample count is `floor (1 / (1/4) + 1)`. -/
theorem C11_sample_count_witness :
    sampleCount (1 / 4) = ⌊1 / (1 / 4 : ℚ) + 1⌋.toNat :=
  (C11_sample_count sampleAtof).2.2.2.2 (1 / 4) (by decide!) (by decide!) (by decide!)
    (by decide!)

/-- C12 (code defect): the invocation `prog 2 landmarks.txt`, which supplies the
dimension and the file and none of the optional arguments, prints the usage text and
exits with status `1`; no fit is configured, whereas the configuration described for
it is order `3`, `5` levels, `4` control points, spacing `0.001` (as a `double`), not
closed. -/
theorem C12_empty_prefix_rejected :
    curveFitterMain sampleAtof ["prog", "2", "landmarks.txt"] = CurveFitterOutcome.usage 1 ∧
      specFitConfig sampleAtof [] =
        { spacing := roundDouble 0.001, size := 1001, order := 3, ncps := 4, nlevels := 5,
          close := 0 } := by
  refine ⟨by decide, ?_⟩
  simp only [specFitConfig, List.getElem?_nil, Option.map_none', Option.getD_none,
    sampleCount_default]
  rfl

/-- With at least one optional argument and a dimension argument that reads `2`, `3`
or `4`, the fit runs in that dimension with the configuration the specification
describes. -/
theorem curveFitterMain_fit (atof : String → ℚ) (prog dim file order : String)
    (rest : List String) (hdim : atoi dim = 2 ∨ atoi dim = 3 ∨ atoi dim = 4) :
    curveFitterMain atof (prog :: dim :: file :: order :: rest) =
      CurveFitterOutcome.fit (atoi dim).toNat (specFitConfig atof (order :: rest)) := by
  rw [← fitConfig_eq_spec atof prog dim file (order :: rest)]
  rcases hdim with h | h | h <;> simp [curveFitterMain, h]

/-- C13 (code defect): with the dimension argument `1` the fit is instantiated for
dimension `2`: two coordinate slots are filled per input line and two coordinates are
printed per sample. -/
theorem C13_dimension_one_runs_as_two :
    curveFitterMain sampleAtof ["prog", "1", "landmarks.txt", "3"] =
        CurveFitterOutcome.fit 2 (fitConfig sampleAtof ["prog", "1", "landmarks.txt", "3"]) ∧
      (parseLine readNumber 2 "7,8,1,".toList).map ParseState.vector =
        some [some 7, some 8] ∧
      printSample 2 [(7 : Int), 8] = [Tok.num 7, Tok.str ",", Tok.num 8, Tok.endl] := by
  refine ⟨rfl, by decide, by decide⟩

/-- C15: `main` of the curve fitter prints the usage text and exits with status `1`
exactly when `argc < 4`; with `argc >= 4` it reports "Unsupported dimension" and exits
with the failure status exactly when `atoi` of the dimension argument is none of
`1, 2, 3, 4`, and otherwise it runs the fit with the configuration read from `argv`. -/
theorem C15_exit_behaviour (atof : String → ℚ) (argv : List String) :
    ((∃ status, curveFitterMain atof argv = CurveFitterOutcome.usage status) ↔
        argv.length < 4) ∧
      (argv.length < 4 → curveFitterMain atof argv = CurveFitterOutcome.usage 1) ∧
      (4 ≤ argv.length →
        ((∃ message status,
            curveFitterMain atof argv = CurveFitterOutcome.unsupported message status) ↔
          ¬ (atoi (argv.getD 1 "") = 1 ∨ atoi (argv.getD 1 "") = 2 ∨
              atoi (argv.getD 1 "") = 3 ∨ atoi (argv.getD 1 "") = 4))) ∧
      (4 ≤ argv.length →
        ¬ (atoi (argv.getD 1 "") = 1 ∨ atoi (argv.getD 1 "") = 2 ∨
            atoi (argv.getD 1 "") = 3 ∨ atoi (argv.getD 1 "") = 4) →
        curveFitterMain atof argv =
          CurveFitterOutcome.unsupported "Unsupported dimension" EXIT_FAILURE ∧
          EXIT_FAILURE ≠ 0) ∧
      (4 ≤ argv.length →
        (atoi (argv.getD 1 "") = 1 ∨ atoi (argv.getD 1 "") = 2 ∨
            atoi (argv.getD 1 "") = 3 ∨ atoi (argv.getD 1 "") = 4) →
        ∃ PointDimension,
          curveFitterMain atof argv =
            CurveFitterOutcome.fit PointDimension (fitConfig atof argv)) := by
  by_cases hlen : argv.length < 4
  · have hmain : curveFitterMain atof argv = CurveFitterOutcome.usage 1 := by
      simp only [curveFitterMain, if_pos hlen]
    refine ⟨⟨fun _ => hlen, fun _ => ⟨1, hmain⟩⟩, fun _ => hmain, ?_, ?_, ?_⟩ <;>
      intro h <;> omega
  · have hge : 4 ≤ argv.length := by omega
    by_cases h1 : atoi (argv.getD 1 "") = 1
    · have hmain : curveFitterMain atof argv =
          CurveFitterOutcome.fit 2 (fitConfig atof argv) := by
        simp only [curveFitterMain, if_neg hlen, if_pos h1]
      refine ⟨⟨?_, fun h => absurd h hlen⟩, fun h => absurd h hlen, fun _ => ⟨?_, ?_⟩,
        fun _ hn => absurd (Or.inl h1) hn, fun _ _ => ⟨2, hmain⟩⟩
      · rintro ⟨s, hs⟩; rw [hmain] at hs; cases hs
      · rintro ⟨m, s, hs⟩; rw [hmain] at hs; cases hs
      · intro hn; exact absurd (Or.inl h1) hn
    by_cases h2 : atoi (argv.getD 1 "") = 2
    · have hmain : curveFitterMain atof argv =
          CurveFitterOutcome.fit 2 (fitConfig atof argv) := by
        simp only [curveFitterMain, if_neg hlen, if_neg h1, if_pos h2]
      refine ⟨⟨?_, fun h => absurd h hlen⟩, fun h => absurd h hlen, fun _ => ⟨?_, ?_⟩,
        fun _ hn => absurd (Or.inr (Or.inl h2)) hn, fun _ _ => ⟨2, hmain⟩⟩
      · rintro ⟨s, hs⟩; rw [hmain] at hs; cases hs
      · rintro ⟨m, s, hs⟩; rw [hmain] at hs; cases hs
      · intro hn; exact absurd (Or.inr (Or.inl h2)) hn
    by_cases h3 : atoi (argv.getD 1 "") = 3
    · have hmain : curveFitterMain atof argv =
          CurveFitterOutcome.fit 3 (fitConfig atof argv) := by
        simp only [curveFitterMain, if_neg hlen, if_neg h1, if_neg h2, if_pos h3]
      refine ⟨⟨?_, fun h => absurd h hlen⟩, fun h => absurd h hlen, fun _ => ⟨?_, ?_⟩,
        fun _ hn => absurd (Or.inr (Or.inr (Or.inl h3))) hn, fun _ _ => ⟨3, hmain⟩⟩
      · rintro ⟨s, hs⟩; rw [hmain] at hs; cases hs
      · rintro ⟨m, s, hs⟩; rw [hmain] at hs; cases hs
      · intro hn; exact absurd (Or.inr (Or.inr (Or.inl h3))) hn
    by_cases h4 : atoi (argv.getD 1 "") = 4
    · have hmain : curveFitterMain atof argv =
          CurveFitterOutcome.fit 4 (fitConfig atof argv) := by
        simp only [curveFitterMain, if_neg hlen, if_neg h1, if_neg h2, if_neg h3, if_pos h4]
      refine ⟨⟨?_, fun h => absurd h hlen⟩, fun h => absurd h hlen, fun _ => ⟨?_, ?_⟩,
        fun _ hn => absurd (Or.inr (Or.inr (Or.inr h4))) hn, fun _ _ => ⟨4, hmain⟩⟩
      · rintro ⟨s, hs⟩; rw [hmain] at hs; cases hs
      · rintro ⟨m, s, hs⟩; rw [hmain] at hs; cases hs
      · intro hn; exact absurd (Or.inr (Or.inr (Or.inr h4))) hn
    · have hnone : ¬ (atoi (argv.getD 1 "") = 1 ∨ atoi (argv.getD 1 "") = 2 ∨
          atoi (argv.getD 1 "") = 3 ∨ atoi (argv.getD 1 "") = 4) := by
        rintro (h | h | h | h)
        · exact h1 h
        · exact h2 h
        · exact h3 h
        · exact h4 h
      have hmain : curveFitterMain atof argv =
          CurveFitterOutcome.unsupported "Unsupported dimension" EXIT_FAILURE := by
        simp only [curveFitterMain, if_neg hlen, if_neg h1, if_neg h2, if_neg h3, if_neg h4]
      refine ⟨⟨?_, fun h => absurd h hlen⟩, fun h => absurd h hlen,
        fun _ => ⟨fun _ => hnone, fun _ => ⟨_, _, hmain⟩⟩,
        fun _ _ => ⟨hmain, by decide⟩, fun _ h => absurd h hnone⟩
      rintro ⟨s, hs⟩; rw [hmain] at hs; cases hs

/-- Witness for C15: the invocation `prog 7 landmarks.txt 3` has four arguments and a
dimension outside `1..4`, so it ends with "Unsupported dimension" and the failure
status. -/
theorem C15_exit_behaviour_witness :
    curveFitterMain sampleAtof ["prog", "7", "landmarks.txt", "3"] =
        CurveFitterOutcome.unsupported "Unsupported dimension" EXIT_FAILURE ∧
      EXIT_FAILURE ≠ 0 :=
  (C15_exit_behaviour sampleAtof ["prog", "7", "landmarks.txt", "3"]).2.2.2.1 (by decide)
    (by decide)

end CurveFitterMainProofs

/-! ## ContourExtractor: properties -/

section ContourExtractorProofs

/-- C14: with `argc < 4` the contour extractor prints the usage text and exits with
status `1` without reading an image; otherwise, if the first character of the
dimension argument is `X` it runs the slice-by-slice 3-D pipeline; otherwise it runs
the volumetric pipeline in 2-D when `atoi` of the argument is `2` and in 3-D when it
is `3`, and in every other case reports "Unsupported dimension" and exits with the
failure status; `SetFullyConnected` is called exactly when `argc > 4`. -/
theorem C14_contour_dispatch (atof : String → ℚ) (argv : List String) :
    (argv.length < 4 →
        contourMain atof argv = [ContourAction.usage, ContourAction.exit 1] ∧
          imagesRead (contourMain atof argv) = []) ∧
      (4 ≤ argv.length → (argv.getD 1 "").toList.head? = some 'X' →
        contourMain atof argv =
          [ContourAction.read 3 (argv.getD 2 ""),
            ContourAction.contour true (connectivityFlag atof argv),
            ContourAction.write (argv.getD 3 "")]) ∧
      (4 ≤ argv.length → (argv.getD 1 "").toList.head? ≠ some 'X' →
        atoi (argv.getD 1 "") = 2 →
        contourMain atof argv =
          [ContourAction.read 2 (argv.getD 2 ""),
            ContourAction.contour false (connectivityFlag atof argv),
            ContourAction.write (argv.getD 3 "")]) ∧
      (4 ≤ argv.length → (argv.getD 1 "").toList.head? ≠ some 'X' →
        atoi (argv.getD 1 "") = 3 →
        contourMain atof argv =
          [ContourAction.read 3 (argv.getD 2 ""),
            ContourAction.contour false (connectivityFlag atof argv),
            ContourAction.write (argv.getD 3 "")]) ∧
      (4 ≤ argv.length → (argv.getD 1 "").toList.head? ≠ some 'X' →
        atoi (argv.getD 1 "") ≠ 2 → atoi (argv.getD 1 "") ≠ 3 →
        contourMain atof argv =
          [ContourAction.error "Unsupported dimension", ContourAction.exit EXIT_FAILURE] ∧
          EXIT_FAILURE ≠ 0) ∧
      ((∃ flag, connectivityFlag atof argv = some flag) ↔ argv.length > 4) := by
  refine ⟨?_, ?_, ?_, ?_, ?_, ?_⟩
  · intro hlen
    have hmain : contourMain atof argv = [ContourAction.usage, ContourAction.exit 1] := by
      simp only [contourMain, if_pos hlen]
    rw [hmain]
    exact ⟨rfl, rfl⟩
  · intro hlen hX
    have hlen' : ¬ argv.length < 4 := by omega
    simp only [contourMain, if_neg hlen', if_pos hX, ExtractContoursSliceBySlice]
  · intro hlen hX h2
    have hlen' : ¬ argv.length < 4 := by omega
    simp only [contourMain, if_neg hlen', if_neg hX, if_pos h2, ExtractContours]
  · intro hlen hX h3
    have hlen' : ¬ argv.length < 4 := by omega
    have h2 : ¬ atoi (argv.getD 1 "") = 2 := by rw [h3]; decide
    simp only [contourMain, if_neg hlen', if_neg hX, if_neg h2, if_pos h3, ExtractContours]
  · intro hlen hX h2 h3
    have hlen' : ¬ argv.length < 4 := by omega
    refine ⟨?_, by decide⟩
    simp only [contourMain, if_neg hlen', if_neg hX, if_neg h2, if_neg h3]
  · unfold connectivityFlag
    by_cases h : argv.length > 4
    · rw [if_pos h]
      exact ⟨fun _ => h, fun _ => ⟨_, rfl⟩⟩
    · rw [if_neg h]
      refine ⟨?_, fun h' => absurd h' h⟩
      rintro ⟨flag, hflag⟩
      cases hflag

/-- Witness for C14: the invocation `prog X in.nii out.nii` runs the slice-by-slice
pipeline without calling `SetFullyConnected`. -/
theorem C14_contour_dispatch_witness :
    contourMain sampleAtof ["prog", "X", "in.nii", "out.nii"] =
      [ContourAction.read 3 (["prog", "X", "in.nii", "out.nii"].getD 2 ""),
        ContourAction.contour true
          (connectivityFlag sampleAtof ["prog", "X", "in.nii", "out.nii"]),
        ContourAction.write (["prog", "X", "in.nii", "out.nii"].getD 3 "")] :=
  (C14_contour_dispatch sampleAtof ["prog", "X", "in.nii", "out.nii"]).2.1 (by decide)
    (by decide)

end ContourExtractorProofs

/-! ## GaborKernelFunction: properties -/

section GaborProofs

/-- C18: over the reals, for every `u` and every kernel with `sigma ≠ 0`, `Evaluate`
is the real part of `EvaluateComplex` when `CalculateImaginaryPart` is false and the
imaginary part when it is true; the modulus of `EvaluateComplex` is the Gaussian
envelope `exp (-0.5 (u / sigma)^2)`; and the absolute value of `Evaluate` is at most
`1`. -/
theorem C18_gabor_consistency (k : GaborKernelFunction ℝ) (u : ℝ) (_hsigma : k.m_Sigma ≠ 0) :
    (k.m_CalculateImaginaryPart = false →
        GaborKernelFunction.Evaluate Real.exp Real.cos Real.sin Real.pi k u =
          (GaborKernelFunction.EvaluateComplex Real.exp Real.cos Real.sin Real.pi k u).1) ∧
      (k.m_CalculateImaginaryPart = true →
        GaborKernelFunction.Evaluate Real.exp Real.cos Real.sin Real.pi k u =
          (GaborKernelFunction.EvaluateComplex Real.exp Real.cos Real.sin Real.pi k u).2) ∧
      Complex.abs
          ⟨(GaborKernelFunction.EvaluateComplex Real.exp Real.cos Real.sin Real.pi k u).1,
            (GaborKernelFunction.EvaluateComplex Real.exp Real.cos Real.sin Real.pi k u).2⟩ =
        Real.exp (-0.5 * (u / k.m_Sigma) ^ 2) ∧
      |GaborKernelFunction.Evaluate Real.exp Real.cos Real.sin Real.pi k u| ≤ 1 := by
  have henv_pos : 0 < Real.exp (-0.5 * (u / k.m_Sigma * (u / k.m_Sigma))) := Real.exp_pos _
  have henv_le : Real.exp (-0.5 * (u / k.m_Sigma * (u / k.m_Sigma))) ≤ 1 := by
    rw [Real.exp_le_one_iff]
    have hsq : 0 ≤ u / k.m_Sigma * (u / k.m_Sigma) := mul_self_nonneg _
    linarith
  refine ⟨?_, ?_, ?_, ?_⟩
  · intro h
    simp [GaborKernelFunction.Evaluate, GaborKernelFunction.EvaluateComplex, h]
  · intro h
    simp [GaborKernelFunction.Evaluate, GaborKernelFunction.EvaluateComplex, h]
  · simp only [GaborKernelFunction.EvaluateComplex]
    rw [Complex.abs_apply, Complex.normSq_mk, sq]
    set e := Real.exp (-0.5 * (u / k.m_Sigma * (u / k.m_Sigma))) with he
    set c := Real.cos (2.0 * Real.pi * k.m_Frequency * u + k.m_PhaseOffset) with hc
    set s := Real.sin (2.0 * Real.pi * k.m_Frequency * u + k.m_PhaseOffset) with hs
    have hcs : c ^ 2 + s ^ 2 = 1 := Real.cos_sq_add_sin_sq _
    have hsum : e * c * (e * c) + e * s * (e * s) = e * e := by
      have : e * c * (e * c) + e * s * (e * s) = e * e * (c ^ 2 + s ^ 2) := by ring
      rw [this, hcs, mul_one]
    rw [hsum, Real.sqrt_mul_self (le_of_lt henv_pos)]
  · simp only [GaborKernelFunction.Evaluate]
    split_ifs
    · rw [abs_mul, abs_of_pos henv_pos]
      calc Real.exp (-0.5 * (u / k.m_Sigma * (u / k.m_Sigma))) *
            |Real.sin (2.0 * Real.pi * k.m_Frequency * u + k.m_PhaseOffset)|
          ≤ 1 * 1 := mul_le_mul henv_le (Real.abs_sin_le_one _) (abs_nonneg _) zero_le_one
        _ = 1 := mul_one 1
    · rw [abs_mul, abs_of_pos henv_pos]
      calc Real.exp (-0.5 * (u / k.m_Sigma * (u / k.m_Sigma))) *
            |Real.cos (2.0 * Real.pi * k.m_Frequency * u + k.m_PhaseOffset)|
          ≤ 1 * 1 := mul_le_mul henv_le (Real.abs_cos_le_one _) (abs_nonneg _) zero_le_one
        _ = 1 := mul_one 1

/-- Witness for C18: the kernel with `sigma = 1`, frequency `1`, phase offset `0` and
the real part selected, evaluated at `u = 0`. -/
theorem C18_gabor_consistency_witness :
    |GaborKernelFunction.Evaluate Real.exp Real.cos Real.sin Real.pi
        { m_Sigma := 1, m_Frequency := 1, m_PhaseOffset := 0,
          m_CalculateImaginaryPart := false } 0| ≤ 1 :=
  (C18_gabor_consistency
    { m_Sigma := 1, m_Frequency := 1, m_PhaseOffset := 0, m_CalculateImaginaryPart := false }
    0 one_ne_zero).2.2.2

end GaborProofs

/-! ## LungSegmenter: the per-slice write-back -/

section WriteBackProofs

/-- The write-back loop from position `k` on: a voxel at position `j` becomes the
foreground value when the filter output at `j` is the foreground value, and keeps its
label otherwise. -/
theorem writeBack_fold_getElem? (output : List Int) :
    ∀ (k : Nat) (slice : List Int) (j : Nat),
      ((output.enumFrom k).foldl
          (fun sl io => if io.2 = ForegroundValue then sl.set io.1 ForegroundValue else sl)
          slice)[j]? =
        slice[j]?.map fun v =>
          if k ≤ j ∧ output[j - k]? = some ForegroundValue then ForegroundValue else v := by
  induction output with
  | nil =>
    intro k slice j
    cases h : slice[j]? <;> simp [h]
  | cons o output ih =>
    intro k slice j
    rw [List.enumFrom_cons, List.foldl_cons, ih]
    by_cases hjk : j = k
    · subst hjk
      have hno : ¬ (j + 1 ≤ j ∧ output[j - (j + 1)]? = some ForegroundValue) := by omega
      simp only [hno, if_false, le_refl, true_and, Nat.sub_self, List.getElem?_cons_zero,
        Option.some.injEq]
      by_cases ho : o = ForegroundValue
      · simp only [ho, if_true, List.getElem?_set]
        cases h : slice[j]? with
        | none =>
          have hlen : ¬ j < slice.length := by
            intro hlt
            rw [List.getElem?_eq_getElem hlt] at h
            cases h
          simp [hlen]
        | some v =>
          have hlen : j < slice.length := by
            by_contra hlt
            rw [List.getElem?_eq_none (by omega)] at h
            cases h
          simp [hlen]
      · simp [ho]
    · have hset : (if o = ForegroundValue then slice.set k ForegroundValue else slice)[j]? =
          slice[j]? := by
        split_ifs
        · rw [List.getElem?_set, if_neg (fun h => hjk h.symm)]
        · rfl
      rw [hset]
      cases h : slice[j]? with
      | none => rfl
      | some v =>
        simp only [Option.map_some', Option.some.injEq]
        by_cases hlt : j < k
        · have h1 : ¬ (k + 1 ≤ j ∧ output[j - (k + 1)]? = some ForegroundValue) := by omega
          have h2 : ¬ (k ≤ j ∧ (o :: output)[j - k]? = some ForegroundValue) := by omega
          rw [if_neg h1, if_neg h2]
        · obtain ⟨m, hm⟩ : ∃ m, j - k = m + 1 := ⟨j - k - 1, by omega⟩
          have hm' : j - (k + 1) = m := by omega
          have hle1 : k + 1 ≤ j := by omega
          have hle2 : k ≤ j := by omega
          simp only [hm, hm', List.getElem?_cons_succ, hle1, hle2, true_and]

/-- The write-back of one slice, voxel by voxel. -/
theorem writeBackSlice_getElem? (output slice : List Int) (j : Nat) :
    (writeBackSlice output slice)[j]? =
      slice[j]?.map fun v =>
        if output[j]? = some ForegroundValue then ForegroundValue else v := by
  unfold writeBackSlice List.enum
  rw [writeBack_fold_getElem? output 0 slice j]
  simp

/-- The write-back keeps the number of voxels of the slice. -/
theorem writeBackSlice_length (output slice : List Int) :
    (writeBackSlice output slice).length = slice.length := by
  unfold writeBackSlice
  refine foldl_preserves (fun sl : List Int => sl.length = slice.length) _ _ _ rfl ?_
  intro sl io hsl
  split_ifs
  · rw [List.length_set, hsl]
  · exact hsl

/-- A loop that rewrites the slices of a duplicate-free index list, each from its own
current content, rewrites exactly the listed slices and leaves the others. -/
theorem foldl_set_getElem? (g : List Int → List Int) (indices : List Nat)
    (hnodup : indices.Nodup) :
    ∀ (volume : List (List Int)) (j : Nat),
      (indices.foldl (fun vol s => vol.set s (g (vol.getD s []))) volume)[j]? =
        if j ∈ indices then volume[j]?.map g else volume[j]? := by
  induction indices with
  | nil => intro volume j; simp
  | cons s indices ih =>
    intro volume j
    rw [List.nodup_cons] at hnodup
    rw [List.foldl_cons, ih hnodup.2]
    by_cases hjs : j = s
    · subst hjs
      rw [if_neg hnodup.1, if_pos (List.mem_cons_self _ _), List.getElem?_set, if_pos rfl]
      by_cases hlt : j < volume.length
      · rw [if_pos hlt, List.getD_eq_getElem _ _ hlt, List.getElem?_eq_getElem hlt]
        rfl
      · rw [if_neg hlt, List.getElem?_eq_none (by omega)]
        rfl
    · have hset : (volume.set s (g (volume.getD s [])))[j]? = volume[j]? := by
        rw [List.getElem?_set, if_neg (fun h : s = j => hjs h.symm)]
      rw [hset]
      simp only [List.mem_cons, hjs, false_or]

/-- The per-slice repair rewrites every slice once, from its content before the
pass. -/
theorem repairPass_eq_map (sliceFilter : List Int → List Int) (volume : List (List Int)) :
    repairPass sliceFilter volume =
      volume.map fun sl => writeBackSlice (sliceFilter sl) sl := by
  apply List.ext_getElem?
  intro j
  unfold repairPass
  rw [foldl_set_getElem? (fun sl => writeBackSlice (sliceFilter sl) sl) _
    (List.nodup_reverse.2 (List.nodup_range _)), List.getElem?_map]
  by_cases hj : j < volume.length
  · rw [if_pos (by simpa using hj)]
  · rw [if_neg (by simpa using hj), List.getElem?_eq_none (by omega)]
    rfl

/-- The literal slice loop visits the slices in decreasing order and computes the
same volume as the fold over the reversed index range. -/
theorem repairLoop_eq (sliceFilter : List Int → List Int) :
    ∀ (k : Nat) (visited : List Nat) (volume : List (List Int)),
      repairLoop sliceFilter k (visited, volume) =
        (visited ++ (List.range k).reverse,
          (List.range k).reverse.foldl
            (fun vol s =>
              vol.set s (writeBackSlice (sliceFilter (vol.getD s [])) (vol.getD s [])))
            volume) := by
  intro k
  induction k with
  | zero => intro visited volume; simp [repairLoop]
  | succ k ih =>
    intro visited volume
    rw [repairLoop, ih, List.range_succ, List.reverse_append]
    simp [List.append_assoc]

/-- C17: the slice loop visits each slice index once, from `size_z - 1` down to `0`,
and computes the repaired volume; the volume keeps its slices and voxels, and each
voxel becomes the foreground value `2` exactly where the filter output of its slice
is `2` and keeps its label elsewhere, so a voxel labelled `2` before the pass is
still `2` after it. -/
theorem C17_write_back (sliceFilter : List Int → List Int) (volume : List (List Int)) :
    repairLoop sliceFilter volume.length ([], volume) =
        ((List.range volume.length).reverse, repairPass sliceFilter volume) ∧
      (List.range volume.length).reverse.Nodup ∧
      List.Pairwise (fun a b => b < a) (List.range volume.length).reverse ∧
      (∀ s, s ∈ (List.range volume.length).reverse ↔ s < volume.length) ∧
      (repairPass sliceFilter volume).length = volume.length ∧
      (∀ (s : Nat) (sl : List Int), volume[s]? = some sl →
        ∃ sl' : List Int, (repairPass sliceFilter volume)[s]? = some sl' ∧
          sl'.length = sl.length ∧
          ∀ (i : Nat) (v : Int), sl[i]? = some v →
            sl'[i]? = some (if (sliceFilter sl)[i]? = some ForegroundValue then ForegroundValue
              else v) ∧
            (v = ForegroundValue → sl'[i]? = some ForegroundValue)) := by
  refine ⟨?_, List.nodup_reverse.2 (List.nodup_range _), ?_, ?_, ?_, ?_⟩
  · rw [repairLoop_eq]
    rfl
  · rw [List.pairwise_reverse]
    exact List.pairwise_lt_range _
  · intro s
    simp
  · rw [repairPass_eq_map, List.length_map]
  · intro s sl hs
    refine ⟨writeBackSlice (sliceFilter sl) sl, ?_, writeBackSlice_length _ _, ?_⟩
    · rw [repairPass_eq_map, List.getElem?_map, hs]
      rfl
    · intro i v hv
      have h := writeBackSlice_getElem? (sliceFilter sl) sl i
      rw [hv] at h
      refine ⟨h, ?_⟩
      intro hfg
      rw [h, hfg]
      simp

/-- Witness for C17: on a two-slice volume the loop visits slice `1`, then slice `0`,
and returns the repaired volume. -/
theorem C17_write_back_witness :
    repairLoop sampleSliceFilter [[0, 1], [1, 1]].length ([], [[0, 1], [1, 1]]) =
      ((List.range [[0, 1], [1, 1]].length).reverse,
        repairPass sampleSliceFilter [[0, 1], [1, 1]]) :=
  (C17_write_back sampleSliceFilter [[0, 1], [1, 1]]).1

end WriteBackProofs

/-! ## DeformationFieldLandmarkExporter: coverage -/

section ExporterCoverageProofs

variable {α : Type}

/-- C16 (as stated, fails in pull mode): a one-voxel 2-D field with displacement
`(5, 0)`, unit geometry and a mask equal to `1` everywhere, run with `type = 0`.  The
voxel `(0, 0)` has a non-zero displacement and a positive mask value at its own
location, which is inside the mask buffer, yet no pair is emitted: both streams hold
only the two sentinel lines. -/
theorem C16_pull_mode_counterexample :
    [0, 0] ∈ rasterIndices [(0, 1), (0, 1)] ∧
      (∃ x ∈ shiftField [0, 0], x ≠ 0) ∧
      unitInsideBuffer [(0, 1), (0, 1)] (sampleToPhysical [0, 0]) = true ∧
      0 < (fun _ : List Int => 1) (sampleToPhysical [0, 0]) ∧
      emittedVoxels 2 0 shiftField sampleToPhysical (unitInsideBuffer [(0, 1), (0, 1)])
        (fun _ => 1) [(0, 1), (0, 1)] = [] ∧
      (exportLandmarks 2 0 shiftField sampleToPhysical (unitInsideBuffer [(0, 1), (0, 1)])
        (fun _ => 1) [(0, 1), (0, 1)]).strM = sentinel ++ sentinel ∧
      (exportLandmarks 2 0 shiftField sampleToPhysical (unitInsideBuffer [(0, 1), (0, 1)])
        (fun _ => 1) [(0, 1), (0, 1)]).strF = sentinel ++ sentinel := by
  decide

/-- C16 (amended): in push mode, a voxel of the region whose physical location is
inside the mask buffer and is given its own mask value `maskAt ix` by the interpolator
gets a pair as soon as its displacement is non-zero and that mask value is positive; in
pull mode a voxel gets a pair exactly when its displacement is non-zero and the mask is
positive at the displaced location, inside the buffer; in both modes the Moving stream
holds the source locations and the Fixed stream the source locations plus the
displacements of the voxels that got a pair, with coordinates as written in dimension
2 and 3. -/
theorem C16_coverage_and_content [LinearOrderedRing α] (ImageDimension type : Nat)
    (field toPhysical : List Int → List α) (IsInsideBuffer : List α → Bool)
    (Evaluate : List α → Nat) (region : List (Int × Nat)) (maskAt : List Int → Nat) :
    (type ≠ 0 → ∀ ix ∈ rasterIndices region,
        (toPhysical ix).length = ImageDimension →
        IsInsideBuffer (toPhysical ix) = true → Evaluate (toPhysical ix) = maskAt ix →
        (∃ x ∈ field ix, x ≠ 0) → 0 < maskAt ix →
        ix ∈ emittedVoxels ImageDimension type field toPhysical IsInsideBuffer Evaluate
          region) ∧
      (type = 0 → ∀ ix ∈ rasterIndices region,
        (toPhysical ix).length = ImageDimension → (field ix).length = ImageDimension →
        (ix ∈ emittedVoxels ImageDimension type field toPhysical IsInsideBuffer Evaluate
            region ↔
          (∃ x ∈ field ix, x ≠ 0) ∧
            IsInsideBuffer (List.zipWith (fun a b => a + b) (toPhysical ix) (field ix)) = true ∧
            0 < Evaluate (List.zipWith (fun a b => a + b) (toPhysical ix) (field ix)))) ∧
      (exportLandmarks ImageDimension type field toPhysical IsInsideBuffer Evaluate
        region).strM =
        sentinel ++ (movingLines ImageDimension toPhysical 1
          (emittedVoxels ImageDimension type field toPhysical IsInsideBuffer Evaluate
            region)).flatten ++ sentinel ∧
      (exportLandmarks ImageDimension type field toPhysical IsInsideBuffer Evaluate
        region).strF =
        sentinel ++ (fixedLines ImageDimension field toPhysical 1
          (emittedVoxels ImageDimension type field toPhysical IsInsideBuffer Evaluate
            region)).flatten ++ sentinel ∧
      (∀ (pt disp : List α) (k : Nat),
        movingLine 2 pt k =
            [Tok.num (pt.getD 0 0), Tok.str " ", Tok.num (pt.getD 1 0), Tok.str " ",
              Tok.str "0 ", Tok.idx k, Tok.endl] ∧
          fixedLine 2 pt disp k =
            [Tok.num (pt.getD 0 0 + disp.getD 0 0), Tok.str " ",
              Tok.num (pt.getD 1 0 + disp.getD 1 0), Tok.str " ",
              Tok.str "0 ", Tok.idx k, Tok.endl] ∧
          movingLine 3 pt k =
            [Tok.num (pt.getD 0 0), Tok.str " ", Tok.num (pt.getD 1 0), Tok.str " ",
              Tok.num (pt.getD 2 0), Tok.str " ", Tok.idx k, Tok.endl] ∧
          fixedLine 3 pt disp k =
            [Tok.num (pt.getD 0 0 + disp.getD 0 0), Tok.str " ",
              Tok.num (pt.getD 1 0 + disp.getD 1 0), Tok.str " ",
              Tok.num (pt.getD 2 0 + disp.getD 2 0), Tok.str " ", Tok.idx k, Tok.endl]) := by
  obtain ⟨hM, hF⟩ := exportLandmarks_spec ImageDimension type field toPhysical
    IsInsideBuffer Evaluate region
  refine ⟨?_, ?_, hM, hF, ?_⟩
  · intro htype ix hix hlen hin hval hdisp hpos
    unfold emittedVoxels
    rw [List.mem_filter]
    refine ⟨hix, ?_⟩
    unfold emitsPair
    rw [probePoint_push ImageDimension type _ _ htype hlen, hin, hval]
    simp only [Bool.true_and, Bool.and_eq_true, List.any_eq_true, decide_eq_true_eq]
    obtain ⟨x, hx, hne⟩ := hdisp
    exact ⟨⟨x, hx, hne⟩, hpos⟩
  · intro htype ix hix hlen hdlen
    subst htype
    unfold emittedVoxels
    rw [List.mem_filter]
    unfold emitsPair
    rw [probePoint_pull ImageDimension _ _ hlen hdlen]
    simp only [Bool.and_eq_true, List.any_eq_true, decide_eq_true_eq]
    constructor
    · rintro ⟨-, h⟩
      exact h
    · intro h
      exact ⟨hix, h⟩
  · intro pt disp k
    refine ⟨rfl, rfl, rfl, rfl⟩

/-- Witness for C16 (amended): in push mode the one-voxel field with displacement
`(5, 0)` and the all-ones mask of unit geometry emits the pair of voxel `(0, 0)`. -/
theorem C16_coverage_and_content_witness :
    [0, 0] ∈ emittedVoxels 2 1 shiftField sampleToPhysical
      (unitInsideBuffer [(0, 1), (0, 1)]) (fun _ => 1) [(0, 1), (0, 1)] :=
  (C16_coverage_and_content 2 1 shiftField sampleToPhysical
    (unitInsideBuffer [(0, 1), (0, 1)]) (fun _ => 1) [(0, 1), (0, 1)] (fun _ => 1)).1
    (by decide) [0, 0] (by decide) (by decide) (by decide) rfl (by decide) (by decide)

end ExporterCoverageProofs

/-! ## CurveFitter parser: safety -/

section ParserSafetyProofs

variable {α : Type}

/-- Every line is made of comma-free fields separated by commas. -/
theorem exists_joinFields (line : List Char) :
    ∃ (f : List Char) (fs : List (List Char)),
      line = joinFields (f :: fs) ∧ ∀ g ∈ f :: fs, ',' ∉ g := by
  induction line with
  | nil => exact ⟨[], [], rfl, by simp⟩
  | cons c line ih =>
    obtain ⟨f, fs, hline, hf⟩ := ih
    by_cases hc : c = ','
    · refine ⟨[], f :: fs, ?_, ?_⟩
      · rw [hc, hline]
        rfl
      · intro g hg
        rw [List.mem_cons] at hg
        rcases hg with rfl | hg
        · simp
        · exact hf g hg
    · refine ⟨c :: f, fs, ?_, ?_⟩
      · rw [hline]
        cases fs <;> rfl
      · intro g hg
        rw [List.mem_cons] at hg
        rcases hg with rfl | hg
        · intro hmem
          rw [List.mem_cons] at hmem
          rcases hmem with h | h
          · exact hc h.symm
          · exact hf f (List.mem_cons_self _ _) h
        · exact hf g (List.mem_cons_of_mem _ hg)

/-- The recording loop computes the same state as the tokenising loop. -/
theorem tokenLoopLog_fst (rd : List Char → Option α) (PointDimension : Nat) :
    ∀ (fuel : Nat) (st : ParseState α) (log : List ParseEvent),
      (tokenLoopLog rd PointDimension fuel st log).map Prod.fst =
        tokenLoop rd PointDimension fuel st := by
  intro fuel
  induction fuel with
  | zero => intro st log; rfl
  | succ fuel ih =>
    intro st log
    unfold tokenLoopLog tokenLoop
    cases hfind : find st.line ',' with
    | none => rfl
    | some pos =>
      simp only
      split_ifs
      · rfl
      · exact ih _ _

/-- The assignments recorded on a line of comma-free fields are the expected ones. -/
theorem tokenLoopLog_joinFields (rd : List Char → Option α) (PointDimension : Nat)
    (fs : List (List Char)) :
    ∀ (f : List Char) (fuel : Nat) (vector : List (Option α)) (w : Option α) (c : Nat)
      (log : List ParseEvent),
      (∀ g ∈ f :: fs, ',' ∉ g) → c ≤ PointDimension → fs.length < fuel →
      (tokenLoopLog rd PointDimension fuel
          { line := joinFields (f :: fs), vector := vector, weight := w, dimensionCount := c }
          log).map Prod.snd =
        some (log ++ expectedEvents PointDimension c (f :: fs)) := by
  induction fs with
  | nil =>
    intro f fuel vector w c log hf hc hfuel
    obtain ⟨fuel, rfl⟩ : ∃ k, fuel = k + 1 := ⟨fuel - 1, by simp at hfuel; omega⟩
    have hnone : find f ',' = none := find_eq_none f ',' (hf f (List.mem_cons_self _ _))
    simp [tokenLoopLog, joinFields, hnone, expectedEvents]
  | cons g fs ih =>
    intro f fuel vector w c log hf hc hfuel
    obtain ⟨fuel, rfl⟩ : ∃ k, fuel = k + 1 := ⟨fuel - 1, by simp at hfuel; omega⟩
    have hfind : find (f ++ ',' :: joinFields (g :: fs)) ',' = some f.length :=
      find_append_delimiter f _ ',' (hf f (List.mem_cons_self _ _))
    by_cases hD : c = PointDimension
    · simp [tokenLoopLog, joinFields, hfind, hD, expectedEvents]
    · obtain ⟨r, hr⟩ : ∃ r, PointDimension - c = r + 1 := ⟨PointDimension - c - 1, by omega⟩
      have hr' : PointDimension - (c + 1) = r := by omega
      have hrec := ih g fuel (vector.set c (rd f)) w (c + 1)
        (log ++ [ParseEvent.writeSlot c f])
        (fun x hx => hf x (List.mem_cons_of_mem _ hx)) (by omega)
        (by simp only [List.length_cons] at hfuel; omega)
      have hdrop : List.drop (f.length + 1) (f ++ ',' :: joinFields (g :: fs)) =
          joinFields (g :: fs) := by
        rw [← List.drop_drop]
        simp
      have hmin : min (g :: fs).length (r + 1) = min fs.length r + 1 := by
        simp only [List.length_cons]
        omega
      have hexp : expectedEvents PointDimension c (f :: g :: fs) =
          ParseEvent.writeSlot c f :: expectedEvents PointDimension (c + 1) (g :: fs) := by
        unfold expectedEvents
        rw [hr, hr']
        simp only [List.length_cons, Nat.add_sub_cancel]
        have hmin' : min (fs.length + 1) (r + 1) = min fs.length r + 1 := by omega
        rw [hmin']
        simp only [List.take_succ_cons, List.enumFrom_cons, List.map_cons, List.cons_append,
          List.getD_cons_succ, Nat.add_lt_add_iff_right]
      simp only [tokenLoopLog, joinFields, hfind, hD, if_false, List.take_left', hdrop]
      rw [hrec, hexp]
      simp

/-- The slot indices written on a run of expected assignments. -/
theorem writeIndices_expectedEvents (PointDimension : Nat) (fields : List (List Char)) :
    writeIndices (expectedEvents PointDimension 0 fields) =
      List.range (min (fields.length - 1) PointDimension) := by
  have hgen : ∀ (l : List (List Char)) (c : Nat) (tail : List ParseEvent),
      writeIndices tail = [] →
      writeIndices (((l.enumFrom c).map fun it => ParseEvent.writeSlot it.1 it.2) ++ tail) =
        List.range' c l.length := by
    intro l
    induction l with
    | nil => intro c tail ht; simpa using ht
    | cons x l ih =>
      intro c tail ht
      simp only [List.enumFrom_cons, List.map_cons, List.cons_append, writeIndices,
        List.length_cons, List.range'_succ]
      exact congrArg (List.cons c) (ih (c + 1) tail ht)
  unfold expectedEvents
  rw [hgen _ 0 _ (by split_ifs <;> rfl), List.range_eq_range', List.length_take]
  congr 1
  omega

/-- The weight reads on a run of expected assignments. -/
theorem weightReads_expectedEvents (PointDimension : Nat) (fields : List (List Char)) :
    weightReads (expectedEvents PointDimension 0 fields) =
      if PointDimension < fields.length - 1 then [fields.getD PointDimension []] else [] := by
  have hgen : ∀ (l : List (List Char)) (c : Nat) (tail : List ParseEvent),
      weightReads (((l.enumFrom c).map fun it => ParseEvent.writeSlot it.1 it.2) ++ tail) =
        weightReads tail := by
    intro l
    induction l with
    | nil => intro c tail; rfl
    | cons x l ih =>
      intro c tail
      simp only [List.enumFrom_cons, List.map_cons, List.cons_append, weightReads]
      exact ih (c + 1) tail
  unfold expectedEvents
  rw [hgen, Nat.sub_zero]
  split_ifs <;> rfl

/-- The fields converted to numbers on a run of expected assignments. -/
theorem tokensRead_expectedEvents (PointDimension : Nat) (fields : List (List Char)) :
    tokensRead (expectedEvents PointDimension 0 fields) =
      fields.take (min (fields.length - 1) (PointDimension + 1)) := by
  have hgen : ∀ (l : List (List Char)) (c : Nat) (tail : List ParseEvent),
      tokensRead (((l.enumFrom c).map fun it => ParseEvent.writeSlot it.1 it.2) ++ tail) =
        l ++ tokensRead tail := by
    intro l
    induction l with
    | nil => intro c tail; rfl
    | cons x l ih =>
      intro c tail
      simp only [List.enumFrom_cons, List.map_cons, List.cons_append, tokensRead]
      exact congrArg (List.cons x) (ih (c + 1) tail)
  unfold expectedEvents
  rw [hgen, Nat.sub_zero]
  by_cases h : PointDimension < fields.length - 1
  · have hmin1 : min (fields.length - 1) PointDimension = PointDimension := by omega
    have hmin2 : min (fields.length - 1) (PointDimension + 1) = PointDimension + 1 := by omega
    have hlt : PointDimension < fields.length := by omega
    rw [if_pos h, hmin1, hmin2, List.getD_eq_getElem _ _ hlt]
    simp only [tokensRead]
    rw [List.take_succ, List.getElem?_eq_getElem hlt]
    rfl
  · have hmin1 : min (fields.length - 1) PointDimension = fields.length - 1 := by omega
    have hmin2 : min (fields.length - 1) (PointDimension + 1) = fields.length - 1 := by omega
    rw [if_neg h, hmin1, hmin2]
    simp [tokensRead]

/-- C19: on every line and for every dimension `D` the tokenising loop ends within
its fuel; the line is a sequence of comma-free fields, and the loop assigns exactly
the slots `0, 1, ...` below `min (n - 1) D` (`n` the number of fields), all below `D`
and at most `D` of them, in a vector that keeps `D` slots; it reads at most one
weight, namely the field at index `D` (the `D + 1`-st) and only when a comma follows
it; and it converts no field after that one. -/
theorem C19_parser_safety [One α] (rd : List Char → Option α) (PointDimension : Nat)
    (line : List Char) :
    ∃ (f : List Char) (fs : List (List Char)) (st : ParseState α),
      line = joinFields (f :: fs) ∧ (∀ g ∈ f :: fs, ',' ∉ g) ∧
      parseLine rd PointDimension line = some st ∧
      tokenLoopLog rd PointDimension (line.length + 1)
          (initialParseState PointDimension line) [] =
        some (st, expectedEvents PointDimension 0 (f :: fs)) ∧
      st.vector.length = PointDimension ∧
      writeIndices (expectedEvents PointDimension 0 (f :: fs)) =
        List.range (min fs.length PointDimension) ∧
      (∀ i ∈ writeIndices (expectedEvents PointDimension 0 (f :: fs)), i < PointDimension) ∧
      (writeIndices (expectedEvents PointDimension 0 (f :: fs))).length ≤ PointDimension ∧
      weightReads (expectedEvents PointDimension 0 (f :: fs)) =
        (if PointDimension < fs.length then [(f :: fs).getD PointDimension []] else []) ∧
      (weightReads (expectedEvents PointDimension 0 (f :: fs))).length ≤ 1 ∧
      tokensRead (expectedEvents PointDimension 0 (f :: fs)) =
        (f :: fs).take (min fs.length (PointDimension + 1)) := by
  obtain ⟨f, fs, hline, hf⟩ := exists_joinFields line
  have hparse := parseLine_joinFields rd PointDimension f fs hf
  have hfuel : fs.length < (joinFields (f :: fs)).length + 1 :=
    Nat.lt_succ_of_le (length_joinFields f fs)
  have hfst := tokenLoopLog_fst rd PointDimension ((joinFields (f :: fs)).length + 1)
    (initialParseState PointDimension (joinFields (f :: fs))) []
  have hsnd := tokenLoopLog_joinFields rd PointDimension fs f
    ((joinFields (f :: fs)).length + 1) (List.replicate PointDimension none) (some 1) 0 []
    hf (Nat.zero_le _) hfuel
  have hW := writeIndices_expectedEvents PointDimension (f :: fs)
  have hR := weightReads_expectedEvents PointDimension (f :: fs)
  have hT := tokensRead_expectedEvents PointDimension (f :: fs)
  simp only [List.length_cons, Nat.add_sub_cancel] at hW hR hT
  refine ⟨f, fs, _, hline, hf, hline ▸ hparse, ?_, ?_, hW, ?_, ?_, hR, ?_, hT⟩
  · rw [hline]
    have hinit : initialParseState PointDimension (joinFields (f :: fs)) =
        ({ line := joinFields (f :: fs), vector := List.replicate PointDimension none,
           weight := some 1, dimensionCount := 0 } : ParseState α) := rfl
    rw [hinit] at hfst ⊢
    rw [List.nil_append] at hsnd
    unfold parseLine at hparse
    rw [hinit] at hparse
    rw [hparse] at hfst
    cases hres : tokenLoopLog rd PointDimension ((joinFields (f :: fs)).length + 1)
        ({ line := joinFields (f :: fs), vector := List.replicate PointDimension none,
           weight := some 1, dimensionCount := 0 } : ParseState α) [] with
    | none => rw [hres] at hfst; cases hfst
    | some res =>
      rw [hres] at hfst hsnd
      simp only [Option.map_some', Option.some.injEq] at hfst hsnd
      rw [← hfst, ← hsnd]
  · simp only [List.length_append, List.length_map, List.length_take, List.length_cons,
      List.length_replicate]
    omega
  · intro i hi
    rw [hW, List.mem_range] at hi
    omega
  · rw [hW, List.length_range]
    omega
  · rw [hR]
    split_ifs <;> simp

end ParserSafetyProofs

end Utilities
